import Mathlib

/-!
Verification development for the Squared language core
(`src/parser.js`: Lexer and Parser; `src/interpreter.js`: Interpreter).

The JavaScript source is shallowly embedded below:
pure JS functions become Lean functions, the mutable interpreter state
(scope Maps, the output sink, `evalResult`, the host RNG) becomes an
explicit `InterpState` threaded through the evaluator, thrown JS errors
become an explicit error result, and unbounded loops and the mutually
recursive tree walk take a fuel parameter (structural recursion on fuel;
`.timeout` is an out-of-fuel artifact of the embedding, distinct from a
thrown JS error).  JS `Map` scopes (insertion ordered, reference
semantics) are embedded as association lists stored in a heap of scopes
indexed by natural numbers, index 0 being `this.globals`; a closure holds
the heap index of its enclosing scope, matching the JS reference.
Host floating point arithmetic is out of scope (per the specification);
numbers are embedded as integers and the host `Math.random()` draw as a
rational oracle stream.
-/

/-! ## Token model (src/parser.js, Lexer) -/

/-- Tokens emitted by `Lexer.tokenize`.  The JS token objects
`{type, value}` are embedded as a tagged variant; tokens that carry no
`value` field in JS (NEWLINE, INDENT, DEDENT) have no string payload
(JS reads of their `.value` give `undefined`, see `tokVal?`). -/
inductive Tok where
  | ident (value : String)
  | num (value : String)
  | sym (value : String)
  | lbracket
  | rbracket
  | newline
  | indent (count : Nat)
  | dedent
deriving DecidableEq, Repr

/-- The JS read `t.value`: `none` embeds `undefined`
(NEWLINE, INDENT and DEDENT tokens have no `value` field). -/
def tokVal? : Tok → Option String
  | .ident s => some s
  | .num s => some s
  | .sym s => some s
  | .lbracket => some "["
  | .rbracket => some "]"
  | .newline => none
  | .indent _ => none
  | .dedent => none

/-- Token text with `undefined` read as the empty string, the way
`Array.prototype.join` renders `undefined` elements. -/
def tokText (t : Tok) : String := (tokVal? t).getD ""

/-! ## Lexer (src/parser.js lines 1-128) -/

/-- Characters the single/double character symbol branch recognises
(Lexer.tokenize line 30). -/
def symChars : List Char :=
  ['=', ',', '.', '+', '-', '*', '/', '(', ')', '\x7b', '\x7d', '<', '>', '!']

/-- The whitespace test `/\s/` of the lexer, restricted to the ASCII
whitespace actually reachable ('\n' is handled by an earlier branch). -/
def isJsSpace (c : Char) : Bool :=
  c = ' ' || c = '\t' || c = '\r' || c = '\x0b' || c = '\x0c'

/-- The identifier start test `/[a-zA-Z_]/`. -/
def isIdentStart (c : Char) : Bool := c.isAlpha || c = '_'

/-- The identifier body test `/[a-zA-Z0-9_]/` of `readIdentifier`. -/
def isIdentChar (c : Char) : Bool := c.isAlphanum || c = '_'

/-- The number body test `/[0-9.]/` of `readNumber`. -/
def isNumChar (c : Char) : Bool := c.isDigit || c = '.'

/-- Longest prefix of characters satisfying `p`, and the rest
(the common shape of `readIdentifier` / `readNumber` / `skipComment`). -/
def readWhile (p : Char → Bool) : List Char → List Char × List Char
  | [] => ([], [])
  | c :: cs =>
    if p c then
      let (tk, rest) := readWhile p cs
      (c :: tk, rest)
    else ([], c :: cs)

theorem readWhile_rest_length (p : Char → Bool) (l : List Char) :
    (readWhile p l).2.length ≤ l.length := by
  induction l with
  | nil => simp [readWhile]
  | cons c cs ih =>
    by_cases h : p c <;> simp [readWhile, h]
    exact Nat.le_succ_of_le ih

/-- The leading whitespace measuring loop of `handleIndentation`
(lines 78-84): a space counts 1, a tab counts 4, anything else
(including '\n') stops the scan.  Returns the measured width and the
unconsumed rest. -/
def countLeading : List Char → Nat × List Char
  | [] => (0, [])
  | c :: cs =>
    if c = ' ' then
      let (n, rest) := countLeading cs
      (n + 1, rest)
    else if c = '\t' then
      let (n, rest) := countLeading cs
      (n + 4, rest)
    else (0, c :: cs)

theorem countLeading_rest_length (l : List Char) :
    (countLeading l).2.length ≤ l.length := by
  induction l with
  | nil => simp [countLeading]
  | cons c cs ih =>
    by_cases h1 : c = ' ' <;> by_cases h2 : c = '\t' <;>
      simp [countLeading, h1, h2] <;> exact Nat.le_succ_of_le ih

/-- The dedent emission loop of `handleIndentation` (lines 92-96):
while `spaces < cur`, emit a DEDENT and decrease `cur` by 4, clamping
at zero (truncated subtraction is exactly the JS clamp). -/
def dedentLoop (spaces : Nat) : Nat → List Tok
  | cur =>
    if spaces < cur then Tok.dedent :: dedentLoop spaces (cur - 4) else []
termination_by cur => cur
decreasing_by omega

/-- `Lexer.handleIndentation` (lines 77-99).  Takes the current indent
width and the input just after a newline; returns the new indent width,
the emitted INDENT/DEDENT tokens, and the unconsumed input. -/
def handleIndentation (cur : Nat) (input : List Char) :
    Nat × List Tok × List Char :=
  let spaces := (countLeading input).1
  match (countLeading input).2 with
  | [] => (cur, [], [])
  | c :: cs =>
    if c = '\n' ∨ c = '#' then (cur, [], c :: cs)
    else if spaces > cur then (spaces, [Tok.indent (spaces - cur)], c :: cs)
    else if spaces < cur then (spaces, dedentLoop spaces cur, c :: cs)
    else (cur, [], c :: cs)

theorem handleIndentation_rest_length (cur : Nat) (l : List Char) :
    (handleIndentation cur l).2.2.length ≤ l.length := by
  have h := countLeading_rest_length l
  unfold handleIndentation
  rcases hc : (countLeading l).2 with _ | ⟨c, cs⟩
  · simp
  · rw [hc] at h
    simp only [List.length_cons] at h
    simp only [hc]
    by_cases h1 : c = '\n' ∨ c = '#' <;>
      by_cases h2 : (countLeading l).1 > cur <;>
      by_cases h3 : (countLeading l).1 < cur <;>
      simp [h1, h2, h3] <;> omega

/-- The closing dedent loop at the end of `Lexer.tokenize`
(lines 69-72): while the current indent is positive emit a DEDENT and
subtract 4 (the JS counter may go negative there; truncated subtraction
only changes the counter value after the loop has already decided to
stop, so the emitted tokens agree). -/
def finalDedents : Nat → List Tok
  | cur => if 0 < cur then Tok.dedent :: finalDedents (cur - 4) else []
termination_by cur => cur
decreasing_by omega

/-- The main loop of `Lexer.tokenize` (lines 9-67) over the remaining
input characters, carrying `this.currentIndent`.  Branch order follows
the source: newline, whitespace, comment, (two then one character)
symbols, brackets, identifiers, numbers, and unknown characters are
skipped with a warning. -/
def tokenizeAux : List Char → Nat → List Tok
  | [], cur => finalDedents cur
  | c :: rest, cur =>
    if c = '\n' then
      Tok.newline ::
        ((handleIndentation cur rest).2.1 ++
          tokenizeAux (handleIndentation cur rest).2.2
            (handleIndentation cur rest).1)
    else if isJsSpace c then tokenizeAux rest cur
    else if c = '#' then tokenizeAux (readWhile (· ≠ '\n') rest).2 cur
    else if c ∈ symChars then
      if c = '=' ∧ rest.head? = some '=' then
        Tok.sym "==" :: tokenizeAux rest.tail cur
      else if c = '!' ∧ rest.head? = some '=' then
        Tok.sym "!=" :: tokenizeAux rest.tail cur
      else if c = '<' ∧ rest.head? = some '=' then
        Tok.sym "<=" :: tokenizeAux rest.tail cur
      else if c = '>' ∧ rest.head? = some '=' then
        Tok.sym ">=" :: tokenizeAux rest.tail cur
      else Tok.sym (String.mk [c]) :: tokenizeAux rest cur
    else if c = '[' then Tok.lbracket :: tokenizeAux rest cur
    else if c = ']' then Tok.rbracket :: tokenizeAux rest cur
    else if isIdentStart c then
      Tok.ident (String.mk (c :: (readWhile isIdentChar rest).1)) ::
        tokenizeAux (readWhile isIdentChar rest).2 cur
    else if c.isDigit then
      Tok.num (String.mk (c :: (readWhile isNumChar rest).1)) ::
        tokenizeAux (readWhile isNumChar rest).2 cur
    else tokenizeAux rest cur
termination_by l _ => l.length
decreasing_by
  all_goals simp
  · exact Nat.lt_succ_of_le (handleIndentation_rest_length _ _)
  · exact Nat.lt_succ_of_le (readWhile_rest_length _ _)
  all_goals try omega
  · exact Nat.lt_succ_of_le (readWhile_rest_length _ _)
  · exact Nat.lt_succ_of_le (readWhile_rest_length _ _)

/-- `new Lexer(input).tokenize()` — `currentIndent` starts at zero. -/
def tokenize (input : String) : List Tok := tokenizeAux input.data 0

/-- Number of INDENT tokens in a token list. -/
def countIndent (l : List Tok) : Nat :=
  l.countP (fun t => match t with | .indent _ => true | _ => false)

/-- Number of DEDENT tokens in a token list. -/
def countDedent (l : List Tok) : Nat :=
  l.countP (fun t => match t with | .dedent => true | _ => false)

example : tokenize "a\n    b" =
    [Tok.ident "a", Tok.newline, Tok.indent 4, Tok.ident "b",
     Tok.dedent] := by
  simp [tokenize, tokenizeAux, handleIndentation, countLeading, readWhile,
    finalDedents, dedentLoop, isJsSpace, isIdentStart, isIdentChar,
    isNumChar, symChars]

example : tokenize "a\n        b" =
    [Tok.ident "a", Tok.newline, Tok.indent 8, Tok.ident "b",
     Tok.dedent, Tok.dedent] := by
  simp [tokenize, tokenizeAux, handleIndentation, countLeading, readWhile,
    finalDedents, dedentLoop, isJsSpace, isIdentStart, isIdentChar,
    isNumChar, symChars]

/-! ## AST (src/parser.js, Parser) -/

/-- Expression nodes produced by the parser.  `Literal.value` is
`Number(tok.value)`; only integer numerals are in the modelled scope
(host floating point is a declared non-goal of the core), embedded via
`jsNumberLit`. -/
inductive Expr where
  | lit (value : Int)
  | ident (value : String)
  | binary (left : Expr) (op : String) (right : Expr)
  | call (callee : Expr) (args : List Expr)
  | member (object : Expr) (property : String)
  | typeCons (callee : String) (bodyTokens : List Tok)
deriving Repr

/-- Statement nodes produced by the parser.  `ifStmt.alternate = none`
embeds the JS `alternate: null`. -/
inductive Stmt where
  | varDecl (name : String) (value : Expr)
  | assign (name : String) (value : Expr)
  | funcDecl (name : String) (params : List String) (body : List Stmt)
  | ifStmt (test : Expr) (consequent : List Stmt) (alternate : Option (List Stmt))
  | whileStmt (test : Expr) (body : List Stmt)
  | forStmt (init : Stmt) (test : Expr) (update : Stmt) (body : List Stmt)
  | breakStmt
  | continueStmt
  | exprStmt (expression : Expr)
  | returnStmt (value : Expr)
deriving Repr

/-! ## Runtime values (src/interpreter.js) -/

/-- Runtime values of the evaluator.  JS `null` and `undefined` are
collapsed into `vnull` (they only differ in host numeric coercions that
no claim reaches; both format as "undefined").  `nan` embeds the host
NaN produced by failed `parseInt`/arithmetic.  `func.closure` is the
heap index of the enclosing scope, embedding the JS reference
`closure: scope` stored by `FunctionDeclaration`.  `unknownTc` is the
`{type:'UNKNOWN', value: tokens}` fallthrough of
`handleTypeConstruction`. -/
inductive Value where
  | vnull
  | num (n : Int)
  | nan
  | str (s : String)
  | bool (b : Bool)
  | prim (value : Value)
  | arr (elements : List Value)
  | obj (properties : List (String × Value))
  | func (params : List String) (body : List Stmt) (closure : Nat)
  | evalCell (result : Value)
  | unknownTc (tokens : List Tok)
deriving Repr

/-- Control outcomes returned by `execute`
(`{type:'RETURN'|'BREAK'|'CONTINUE'}`). -/
inductive Ctrl where
  | brk
  | cont
  | ret (value : Value)
deriving Repr

/-- The interpreter's mutable state: the heap of scope Maps (index 0 is
`this.globals`; function calls append fresh scopes), the output sink
(text, isError pairs), `this.evalResult`, and the stream of host
`Math.random()` draws. -/
structure InterpState where
  scopes : List (List (String × Value))
  output : List (String × Bool)
  evalResult : Value
  rng : List Rat
deriving Repr

/-- `new Interpreter(out)`: empty globals, no output yet,
`evalResult = null`. -/
def initState : InterpState :=
  { scopes := [[]], output := [], evalResult := .vnull, rng := [] }

/-- Result of an interpreter step: normal value with the state, a thrown
JS error (message and the state at throw time — JS mutations before a
throw persist), or out of fuel (an artifact of the embedding only). -/
inductive Res (v : Type) where
  | ok (a : v) (st : InterpState)
  | err (msg : String) (st : InterpState)
  | timeout
deriving Repr

/-! ## Scope maps (JS `Map` association lists, insertion ordered) -/

/-- `m.has(k)`. -/
def mapHas (m : List (String × Value)) (k : String) : Bool :=
  (m.find? (fun kv => kv.1 = k)).isSome

/-- `m.get(k)` as an option. -/
def mapGet? (m : List (String × Value)) (k : String) : Option Value :=
  (m.find? (fun kv => kv.1 = k)).map (fun kv => kv.2)

/-- `m.get(k)` (undefined when absent, as in JS). -/
def mapGet (m : List (String × Value)) (k : String) : Value :=
  (mapGet? m k).getD .vnull

/-- `m.set(k, v)`: update in place if the key exists (keeping its
position, as a JS Map does), else append. -/
def mapSet (m : List (String × Value)) (k : String) (v : Value) :
    List (String × Value) :=
  match m with
  | [] => [(k, v)]
  | kv :: rest =>
    if kv.1 = k then (k, v) :: rest else kv :: mapSet rest k v

/-- Scope heap read: `st.scopes[r]` (the JS scope object referenced). -/
def getScope (st : InterpState) (r : Nat) : List (String × Value) :=
  st.scopes.getD r []

/-- Scope heap write: replace scope `r` (mutating the JS Map in
place). -/
def setScopeMap (st : InterpState) (r : Nat) (m : List (String × Value)) :
    InterpState :=
  { st with scopes := st.scopes.set r m }

/-! ## Number and string helpers -/

/-- Decimal digits to a natural number. -/
def digitsToNat (l : List Char) : Nat :=
  l.foldl (fun a c => a * 10 + (c.toNat - 48)) 0

/-- Leading decimal digits, `none` when there are none
(the core of host `parseInt`). -/
def parseIntDigits (l : List Char) : Option Nat :=
  let ds := l.takeWhile Char.isDigit
  if ds.isEmpty then none else some (digitsToNat ds)

/-- Host `parseInt(s, 10)`: skip leading whitespace, optional sign,
leading decimal digits; `none` embeds NaN.  (The radix-less calls in the
source auto-detect hex prefixes in the host; no constructor body in the
modelled scope produces one.) -/
def parseIntJS (s : String) : Option Int :=
  match s.data.dropWhile Char.isWhitespace with
  | '-' :: rest => (parseIntDigits rest).map (fun n => -(n : Int))
  | '+' :: rest => (parseIntDigits rest).map (fun n => (n : Int))
  | cs => (parseIntDigits cs).map (fun n => (n : Int))

/-- Host `Number(tok.value)` for a NUMBER token, restricted to integer
numerals (host floats are a declared non-goal; no claim evaluates a
non-integer literal). -/
def jsNumberLit (s : String) : Int :=
  if s.data ≠ [] ∧ s.data.all Char.isDigit then (digitsToNat s.data : Int)
  else 0

/-- `parseInt` applied to a string, as a `Value`
(`NaN` when no digits). -/
def parseIntValue (s : String) : Value :=
  match parseIntJS s with
  | some n => .num n
  | none => .nan

mutual

/-- Host `String(x)` coercion for the value shapes the evaluator
stringifies (plain objects render as "[object Object]", arrays join
their elements with commas). -/
def jsString : Value → String
  | .vnull => "null"
  | .num n => toString n
  | .nan => "NaN"
  | .str s => s
  | .bool b => if b then "true" else "false"
  | .arr els => String.intercalate "," (jsStringList els)
  | .prim _ => "[object Object]"
  | .obj _ => "[object Object]"
  | .func _ _ _ => "[object Object]"
  | .evalCell _ => "[object Object]"
  | .unknownTc _ => "[object Object]"

def jsStringList : List Value → List String
  | [] => []
  | v :: r => jsString v :: jsStringList r

end

mutual

/-- `Interpreter.formatOutput` (lines 10-27): null/undefined render as
"undefined"; arrays as "[e, …]"; `{type:'primitive'}` by `String` of the
payload; OBJECT values as "{ k: v, … }"; raw numbers, strings and
booleans fall through to `String(val)`; other objects (functions,
eval cells) have no `value` field and render "[object Object]". -/
def formatOutput : Value → String
  | .vnull => "undefined"
  | .arr els => "[" ++ String.intercalate ", " (formatList els) ++ "]"
  | .prim v => jsString v
  | .obj props =>
    "\x7b " ++ String.intercalate ", " (formatProps props) ++ " \x7d"
  | .num n => toString n
  | .nan => "NaN"
  | .str s => s
  | .bool b => if b then "true" else "false"
  | .func _ _ _ => "[object Object]"
  | .evalCell _ => "[object Object]"
  | .unknownTc _ => "[object Object]"

def formatList : List Value → List String
  | [] => []
  | v :: r => formatOutput v :: formatList r

def formatProps : List (String × Value) → List String
  | [] => []
  | kv :: r => (kv.1 ++ ": " ++ formatOutput kv.2) :: formatProps r

end

example : formatOutput (.arr [.num 1, .prim (.str "x"), .vnull]) =
    "[1, x, undefined]" := by rfl

/-! ## Parser (src/parser.js lines 130-401), expression grammar only.
`evaluateSegment` re-parses constructor bodies through
`new Parser(tokens); p.parseExpression()`, and every claim about the
parser concerns the expression grammar, so the statement productions are
not needed here.  Parser methods carry the fixed token list and the
cursor `this.pos`; results are `(node, new pos)` or a thrown
SyntaxError.  JS parser recursion terminates because every step consumes
a token; the embedding makes that a structural fuel argument
(`parserFuel` below is an over-approximation of the call count, so the
fuel sentinel is unreachable on the concrete parses settled here). -/

/-- Structural list indexing (`xs[i]` in JS, `undefined` out of
range); defined by recursion so that concrete parses reduce even when
the tail of the token list is a variable. -/
def listAt? {a : Type} : List a → Nat → Option a
  | [], _ => none
  | x :: _, 0 => some x
  | _ :: rest, n+1 => listAt? rest n

/-- `this.check('SYMBOL', v)`. -/
def checkSym (toks : List Tok) (pos : Nat) (v : String) : Bool :=
  match listAt? toks pos with
  | some (.sym s) => s = v
  | _ => false

/-- `this.check('IDENTIFIER')`, returning the spelling. -/
def checkIdent? (toks : List Tok) (pos : Nat) : Option String :=
  match listAt? toks pos with
  | some (.ident s) => some s
  | _ => none

/-- `this.check('NUMBER')`, returning the spelling. -/
def checkNum? (toks : List Tok) (pos : Nat) : Option String :=
  match listAt? toks pos with
  | some (.num s) => some s
  | _ => none

/-- The token-type tag the JS token objects carry, for error text. -/
def tokTypeName : Tok → String
  | .ident _ => "IDENTIFIER"
  | .num _ => "NUMBER"
  | .sym _ => "SYMBOL"
  | .lbracket => "LBRACKET"
  | .rbracket => "RBRACKET"
  | .newline => "NEWLINE"
  | .indent _ => "INDENT"
  | .dedent => "DEDENT"

/-- `JSON.stringify(token)` in SyntaxError text, abridged to the type
tag and value ("undefined" at end of input); no settled claim depends on
this particular rendering. -/
def jsonTok : Option Tok → String
  | none => "undefined"
  | some t =>
    match tokVal? t with
    | some v => "\x7b\"type\":\"" ++ tokTypeName t ++ "\",\"value\":\"" ++ v ++ "\"\x7d"
    | none => "\x7b\"type\":\"" ++ tokTypeName t ++ "\"\x7d"

/-- The SyntaxError text of `Parser.consume` (line 399). -/
def consumeMsg (ty v : String) (t : Option Tok) : String :=
  "Expected " ++ ty ++ " " ++ v ++ " but found " ++ jsonTok t

/-- The type-constructor keyword list of `parseCallMemberPrimary`
(line 338). -/
def ctorKeywords : List String :=
  ["int", "str", "bool", "fstr", "fint", "var", "o", "obj", "a", "f", "fobj"]

/-- The comparison operators of `parseComparisonExpression`. -/
def comparisonOps : List String := ["==", "!=", "<", ">", "<=", ">="]

/-- The additive-level operators of `parseAdditiveExpression`
(`*` and `/` share this level by design). -/
def additiveOps : List String := ["+", "-", "*", "/"]

/-- The symbol at `pos` when it is one of `ops` (the chained
`check('SYMBOL', …)` loop conditions). -/
def symIn? (toks : List Tok) (pos : Nat) (ops : List String) : Option String :=
  match listAt? toks pos with
  | some (.sym s) => if s ∈ ops then some s else none
  | _ => none

mutual

/-- `Parser.parseExpression` (line 287). -/
def parseExpression : Nat → List Tok → Nat → Except String (Expr × Nat)
  | 0, _, _ => .error "PARSER_FUEL"
  | fuel+1, toks, pos => parseComparisonExpression fuel toks pos
termination_by structural fuel _ _ => fuel

/-- `Parser.parseComparisonExpression` (lines 291-301). -/
def parseComparisonExpression :
    Nat → List Tok → Nat → Except String (Expr × Nat)
  | 0, _, _ => .error "PARSER_FUEL"
  | fuel+1, toks, pos =>
    match parseAdditiveExpression fuel toks pos with
    | .error e => .error e
    | .ok (left, pos2) => comparisonLoop fuel toks left pos2
termination_by structural fuel _ _ => fuel

/-- The operator loop of `parseComparisonExpression`. -/
def comparisonLoop : Nat → List Tok → Expr → Nat → Except String (Expr × Nat)
  | 0, _, _, _ => .error "PARSER_FUEL"
  | fuel+1, toks, left, pos =>
    match symIn? toks pos comparisonOps with
    | none => .ok (left, pos)
    | some op =>
      match parseAdditiveExpression fuel toks (pos + 1) with
      | .error e => .error e
      | .ok (right, pos2) =>
        comparisonLoop fuel toks (.binary left op right) pos2
termination_by structural fuel _ _ _ => fuel

/-- `Parser.parseAdditiveExpression` (lines 303-312). -/
def parseAdditiveExpression :
    Nat → List Tok → Nat → Except String (Expr × Nat)
  | 0, _, _ => .error "PARSER_FUEL"
  | fuel+1, toks, pos =>
    match parseCallMemberPrimary fuel toks pos with
    | .error e => .error e
    | .ok (left, pos2) => additiveLoop fuel toks left pos2
termination_by structural fuel _ _ => fuel

/-- The operator loop of `parseAdditiveExpression`. -/
def additiveLoop : Nat → List Tok → Expr → Nat → Except String (Expr × Nat)
  | 0, _, _, _ => .error "PARSER_FUEL"
  | fuel+1, toks, left, pos =>
    match symIn? toks pos additiveOps with
    | none => .ok (left, pos)
    | some op =>
      match parseCallMemberPrimary fuel toks (pos + 1) with
      | .error e => .error e
      | .ok (right, pos2) =>
        additiveLoop fuel toks (.binary left op right) pos2
termination_by structural fuel _ _ _ => fuel

/-- `Parser.parseCallMemberPrimary` (lines 314-364). -/
def parseCallMemberPrimary :
    Nat → List Tok → Nat → Except String (Expr × Nat)
  | 0, _, _ => .error "PARSER_FUEL"
  | fuel+1, toks, pos =>
    match parsePrimary fuel toks pos with
    | .error e => .error e
    | .ok (expr, pos2) => postfixLoop fuel toks expr pos2
termination_by structural fuel _ _ => fuel

/-- The `while (true)` postfix loop of `parseCallMemberPrimary`:
member access after '.', call arguments after '(', and type-constructor
bodies after '[' on a constructor-keyword identifier. -/
def postfixLoop : Nat → List Tok → Expr → Nat → Except String (Expr × Nat)
  | 0, _, _, _ => .error "PARSER_FUEL"
  | fuel+1, toks, expr, pos =>
    if checkSym toks pos "." then
      match checkIdent? toks (pos + 1) with
      | some prop => postfixLoop fuel toks (.member expr prop) (pos + 2)
      | none =>
        match checkNum? toks (pos + 1) with
        | some prop => postfixLoop fuel toks (.member expr prop) (pos + 2)
        | none => .error "Expected identifier or number after dot"
    else if checkSym toks pos "(" then
      if checkSym toks (pos + 1) ")" then
        postfixLoop fuel toks (.call expr []) (pos + 2)
      else
        match argsLoop fuel toks (pos + 1) [] with
        | .error e => .error e
        | .ok (args, pos2) =>
          if checkSym toks pos2 ")" then
            postfixLoop fuel toks (.call expr args) (pos2 + 1)
          else .error (consumeMsg "SYMBOL" ")" (listAt? toks pos2))
    else
      match listAt? toks pos with
      | some .lbracket =>
        match expr with
        | .ident name =>
          if name ∈ ctorKeywords then
            match harvestBody fuel toks (pos + 1) 1 [] with
            | .error e => .error e
            | .ok (content, pos2) =>
              match listAt? toks pos2 with
              | some .rbracket =>
                postfixLoop fuel toks (.typeCons name content) (pos2 + 1)
              | t => .error (consumeMsg "RBRACKET" "" t)
          else .ok (expr, pos)
        | _ => .ok (expr, pos)
      | _ => .ok (expr, pos)
termination_by structural fuel _ _ _ => fuel

/-- The `do … while (this.match(',', …))` argument list of the call
branch (lines 329-334). -/
def argsLoop :
    Nat → List Tok → Nat → List Expr → Except String (List Expr × Nat)
  | 0, _, _, _ => .error "PARSER_FUEL"
  | fuel+1, toks, pos, acc =>
    match parseExpression fuel toks pos with
    | .error e => .error e
    | .ok (e, pos2) =>
      if checkSym toks pos2 "," then
        argsLoop fuel toks (pos2 + 1) (acc ++ [e])
      else .ok (acc ++ [e], pos2)
termination_by structural fuel _ _ _ => fuel

/-- The balanced-bracket harvest of a type-constructor body
(lines 341-353): collect tokens verbatim, tracking `[`/`]` depth, and
stop (without consuming) at the `]` that closes the body or at end of
input. -/
def harvestBody :
    Nat → List Tok → Nat → Nat → List Tok → Except String (List Tok × Nat)
  | 0, _, _, _, _ => .error "PARSER_FUEL"
  | fuel+1, toks, pos, balance, acc =>
    match listAt? toks pos with
    | none => .ok (acc, pos)
    | some t =>
      match t with
      | .lbracket => harvestBody fuel toks (pos + 1) (balance + 1) (acc ++ [t])
      | .rbracket =>
        if balance = 1 then .ok (acc, pos)
        else harvestBody fuel toks (pos + 1) (balance - 1) (acc ++ [t])
      | _ => harvestBody fuel toks (pos + 1) balance (acc ++ [t])
termination_by structural fuel _ _ _ _ => fuel

/-- `Parser.parsePrimary` (lines 366-379): parenthesised expression,
identifier, or number literal. -/
def parsePrimary : Nat → List Tok → Nat → Except String (Expr × Nat)
  | 0, _, _ => .error "PARSER_FUEL"
  | fuel+1, toks, pos =>
    if checkSym toks pos "(" then
      match parseExpression fuel toks (pos + 1) with
      | .error e => .error e
      | .ok (e, pos2) =>
        if checkSym toks pos2 ")" then .ok (e, pos2 + 1)
        else .error (consumeMsg "SYMBOL" ")" (listAt? toks pos2))
    else
      match checkIdent? toks pos with
      | some s => .ok (.ident s, pos + 1)
      | none =>
        match checkNum? toks pos with
        | some s => .ok (.lit (jsNumberLit s), pos + 1)
        | none => .error ("Unexpected token: " ++ jsonTok (listAt? toks pos))
termination_by structural fuel _ _ => fuel

end

/-- Fuel that over-approximates the parser call count on `toks`
(each descent through the five grammar levels and each loop iteration
consumes at least one token). -/
def parserFuel (toks : List Tok) : Nat := 8 * toks.length + 16

/-- `new Parser(tokens); p.parseExpression()` as `evaluateSegment`
performs it: parse from position 0 (without requiring all tokens to be
consumed — the JS parser does not check that). -/
def parseExpressionTop (toks : List Tok) : Except String (Expr × Nat) :=
  parseExpression (parserFuel toks) toks 0

example : parseExpressionTop [Tok.num "42"] = .ok (.lit 42, 1) := by rfl

example : parseExpressionTop [Tok.ident "o", Tok.sym ".", Tok.sym "\x7b",
    Tok.ident "x", Tok.sym "\x7d"] =
    .error "Expected identifier or number after dot" := by rfl

example : parseExpressionTop [Tok.sym ",", Tok.sym ","] =
    .error ("Unexpected token: " ++
      "\x7b\"type\":\"SYMBOL\",\"value\":\",\"\x7d") := by rfl

/-! ## Pure evaluator helpers (src/interpreter.js) -/

/-- `(x && x.value !== undefined) ? x.value : x` in `applyOp`:
primitive wrappers expose their payload, everything else (including
falsy values) stands for itself. -/
def unwrapValue : Value → Value
  | .prim w => w
  | v => v

/-- Host ToNumber coercion for the shapes arithmetic meets; `none`
embeds NaN.  (Host quirks such as `Number([5]) = 5` and
`Number("42") = 42` are outside the claims and embedded as NaN /
digit-parsing respectively.) -/
def toNumber? : Value → Option Int
  | .num n => some n
  | .bool b => some (if b then 1 else 0)
  | .vnull => some 0
  | .nan => none
  | .str s => parseIntJS s
  | _ => none

/-- Values whose host `+` behaviour is string concatenation
(strings, and objects/arrays whose ToPrimitive is a string). -/
def isStringyAdd : Value → Bool
  | .str _ => true
  | .arr _ => true
  | .obj _ => true
  | .func _ _ _ => true
  | .evalCell _ => true
  | .unknownTc _ => true
  | .prim _ => true
  | _ => false

/-- Host `+` on unwrapped payloads: string concatenation when either
side is stringy, else numeric addition (NaN propagating). -/
def jsAdd (a b : Value) : Value :=
  if isStringyAdd a || isStringyAdd b then .str (jsString a ++ jsString b)
  else
    match toNumber? a, toNumber? b with
    | some x, some y => .num (x + y)
    | _, _ => .nan

/-- Host numeric binary op (`-`, `*`); NaN when either side fails
ToNumber. -/
def jsArith (f : Int → Int → Int) (a b : Value) : Value :=
  match toNumber? a, toNumber? b with
  | some x, some y => .num (f x y)
  | _, _ => .nan

/-- Host `/`: the core declares float semantics out of scope; integer
division stands in (no settled claim divides), with NaN for a zero
divisor or non-numbers. -/
def jsDiv (a b : Value) : Value :=
  match toNumber? a, toNumber? b with
  | some x, some y => if y = 0 then .nan else .num (x / y)
  | _, _ => .nan

/-- Host loose equality `==` on unwrapped payloads, restricted to the
coercions the value model can meet; object operands compare by
reference in the host, embedded as `false` (no claim compares
objects). -/
def jsLooseEq (a b : Value) : Bool :=
  match a, b with
  | .num x, .num y => x = y
  | .str x, .str y => x = y
  | .bool x, .bool y => x = y
  | .bool x, y => match toNumber? y with
    | some n => (if x then 1 else 0 : Int) = n
    | none => false
  | x, .bool y => match toNumber? x with
    | some n => n = (if y then 1 else 0 : Int)
    | none => false
  | .num x, .str s => match parseIntJS s with
    | some n => x = n
    | none => false
  | .str s, .num y => match parseIntJS s with
    | some n => n = y
    | none => false
  | .vnull, .vnull => true
  | _, _ => false

/-- Host relational comparison: lexicographic when both operands are
strings, else numeric with NaN yielding false. -/
def jsLess (a b : Value) : Bool :=
  match a, b with
  | .str x, .str y => decide (x < y)
  | x, y =>
    match toNumber? x, toNumber? y with
    | some m, some n => decide (m < n)
    | _, _ => false

/-- Non-strict variants built the same way. -/
def jsLessEq (a b : Value) : Bool :=
  match a, b with
  | .str x, .str y => decide (x ≤ y)
  | x, y =>
    match toNumber? x, toNumber? y with
    | some m, some n => decide (m ≤ n)
    | _, _ => false

/-- `Interpreter.applyOp` (lines 177-194): unwrap primitive payloads,
arithmetic returns a bare number (or string for `+` concatenation),
comparisons return a `{type:'primitive'}` boolean; an unknown operator
returns 0. -/
def applyOp (op : String) (a b : Value) : Value :=
  let va := unwrapValue a
  let vb := unwrapValue b
  if op = "+" then jsAdd va vb
  else if op = "-" then jsArith (fun x y => x - y) va vb
  else if op = "*" then jsArith (fun x y => x * y) va vb
  else if op = "/" then jsDiv va vb
  else if op = "==" then .prim (.bool (jsLooseEq va vb))
  else if op = "!=" then .prim (.bool (!jsLooseEq va vb))
  else if op = "<" then .prim (.bool (jsLess va vb))
  else if op = ">" then .prim (.bool (jsLess vb va))
  else if op = "<=" then .prim (.bool (jsLessEq va vb))
  else if op = ">=" then .prim (.bool (jsLessEq vb va))
  else .num 0

/-- Host truthiness of a value. -/
def jsTruthy : Value → Bool
  | .vnull => false
  | .num n => n ≠ 0
  | .nan => false
  | .str s => s ≠ ""
  | .bool b => b
  | _ => true

/-- The branch condition `cond && (cond.value !== false && cond.value
!== 0)` of `IfStatement`, and (negated) the loop exit `!c || c.value
=== false || c.value === 0` of `While`/`For`: truthy and not a
primitive-wrapped `false` or `0`. -/
def condTruthy (c : Value) : Bool :=
  jsTruthy c &&
    (match c with
     | .prim (.bool false) => false
     | .prim (.num n) => n ≠ 0
     | _ => true)

/-- `prop.match(/^e(\d+)$/)` of the array-member branch. -/
def matchEIndex (p : String) : Option Nat :=
  match p.data with
  | 'e' :: ds =>
    if ds ≠ [] ∧ ds.all Char.isDigit then some (digitsToNat ds) else none
  | _ => none

/-- `/^\d+$/.test(prop)`. -/
def matchDigits (p : String) : Option Nat :=
  if p.data ≠ [] ∧ p.data.all Char.isDigit then some (digitsToNat p.data)
  else none

/-- `JSON.stringify(obj)` in the InvalidMember message, abridged
(no settled claim reads this text). -/
def jsonLite : Value → String
  | .vnull => "null"
  | .num n => toString n
  | .nan => "null"
  | .str s => "\"" ++ s ++ "\""
  | .bool b => if b then "true" else "false"
  | .arr _ => "[…]"
  | .obj _ => "\x7b\"type\":\"OBJECT\"\x7d"
  | .prim _ => "\x7b\"type\":\"primitive\"\x7d"
  | .func _ _ _ => "\x7b\"type\":\"FUNCTION\"\x7d"
  | .evalCell _ => "\x7b…\x7d"
  | .unknownTc _ => "\x7b\"type\":\"UNKNOWN\"\x7d"

/-- `Interpreter.evaluate`, MemberExpression branch (lines 136-167):
array element access (`val`, `eN`, bare index, with the
"undefined"-string out-of-range sentinel), OBJECT property lookup, the
host-visible fields (`result` of an eval cell, `type`/`value`/`params`
tags), the `prop === 'result'` fallthrough on any truthy object, and
the InvalidMember throw. -/
def memberAccess (obj : Value) (prop : String) : Except String Value :=
  let invalid : Except String Value :=
    .error ("Cannot access property " ++ prop ++ " of " ++ jsonLite obj)
  match obj with
  | .arr els =>
    if prop = "val" then .ok (.arr els)
    else
      match matchEIndex prop with
      | some idx => .ok (els.getD idx (.prim (.str "undefined")))
      | none =>
        match matchDigits prop with
        | some idx => .ok (els.getD idx (.prim (.str "undefined")))
        | none =>
          if prop = "length" then .ok (.num els.length)
          else if prop = "result" then .ok .vnull
          else invalid
  | .obj props =>
    match mapGet? props prop with
    | some v => .ok v
    | none =>
      if prop = "type" then .ok (.str "OBJECT")
      else if prop = "result" then .ok .vnull
      else invalid
  | .evalCell r =>
    if prop = "result" then .ok r else invalid
  | .func ps _ _ =>
    if prop = "type" then .ok (.str "FUNCTION")
    else if prop = "params" then .ok (.arr (ps.map .str))
    else if prop = "result" then .ok .vnull
    else invalid
  | .prim w =>
    if prop = "type" then .ok (.str "primitive")
    else if prop = "value" then .ok w
    else if prop = "result" then .ok .vnull
    else invalid
  | .unknownTc _ =>
    if prop = "type" then .ok (.str "UNKNOWN")
    else if prop = "result" then .ok .vnull
    else invalid
  | .num n =>
    if prop = "result" ∧ n ≠ 0 then .ok .vnull else invalid
  | .str s =>
    if prop = "result" ∧ s ≠ "" then .ok .vnull else invalid
  | .bool b =>
    if prop = "result" ∧ b then .ok .vnull else invalid
  | .nan => invalid
  | .vnull => invalid

/-- `getRawString()` of `handleTypeConstruction`:
`tokens.map(t => t.value).join('')`. -/
def getRawString (tokens : List Tok) : String :=
  String.join (tokens.map tokText)

/-- ASCII lowercase of one character (`String.prototype.toLowerCase`
restricted to the ASCII range the lexer can produce). -/
def asciiToLower (c : Char) : Char :=
  if 'A' ≤ c ∧ c ≤ 'Z' then Char.ofNat (c.toNat + 32) else c

/-- `s.toLowerCase()`. -/
def lowerStr (s : String) : String := String.mk (s.data.map asciiToLower)

/-- The whitespace class of host `trim`. -/
def isTrimWs (c : Char) : Bool :=
  c = ' ' || c = '\t' || c = '\n' || c = '\r' || c = '\x0b' || c = '\x0c'

/-- `s.trim()`: strip whitespace from both ends. -/
def trimStr (s : String) : String :=
  String.mk (((s.data.dropWhile isTrimWs).reverse.dropWhile isTrimWs).reverse)

/-- Replacement loop of `s.replace(pat, rep)` with a global literal
pattern (non-overlapping, left to right).  The fuel is bumped past the
string length by the wrapper, so the sentinel arm is unreachable (each
step consumes at least one character when the pattern is non-empty). -/
def replaceAllAux (pat rep : List Char) : Nat → List Char → List Char
  | 0, s => s
  | _+1, [] => []
  | fuel+1, c :: rest =>
    if pat ≠ [] ∧ pat.isPrefixOf (c :: rest) then
      rep ++ replaceAllAux pat rep fuel ((c :: rest).drop pat.length)
    else c :: replaceAllAux pat rep fuel rest

/-- `s.replace(/pat/g, rep)` for a literal pattern. -/
def replaceAllStr (s pat rep : String) : String :=
  String.mk (replaceAllAux pat.data rep.data (s.data.length + 1) s.data)

/-- The `str` constructor body (line 263): join token texts with single
spaces, collapse " , " to "," and " ." to ".", then trim. -/
def strCtorString (tokens : List Tok) : String :=
  replaceAllStr
    (replaceAllStr (String.intercalate " " (tokens.map tokText)) " , " ",")
    " ." "."

/-- Top-level comma split shared by the `a` and `obj`/`o` constructors
(balance counted on LBRACKET/RBRACKET; the bracket tokens themselves
are kept in the segment).  The source evaluates / records each segment
as it is split off; splitting first is observably identical because the
order of segment evaluation is preserved. -/
def splitTopCommaAux :
    List Tok → List Tok → Int → List (List Tok)
  | [], cur, _ => [cur]
  | t :: rest, cur, bal =>
    if tokVal? t = some "," ∧ bal = 0 then
      cur :: splitTopCommaAux rest [] 0
    else
      splitTopCommaAux rest (cur ++ [t])
        (bal + (if t = .lbracket then 1 else 0) -
          (if t = .rbracket then 1 else 0))

/-- Split a constructor body on top-level commas. -/
def splitTopComma (tokens : List Tok) : List (List Tok) :=
  splitTopCommaAux tokens [] 0

/-- The island harvest of the `fint`/`fstr` template scan
(lines 336-348): collect tokens after a `{` until the matching `}`
(tracked on token *values*), returning the island and the tokens after
the closing brace (which the scan skips). -/
def braceScan : List Tok → Int → List Tok × List Tok
  | [], _ => ([], [])
  | t :: rest, bal =>
    if tokVal? t = some "\x7b" then
      let (i, r) := braceScan rest (bal + 1)
      (t :: i, r)
    else if tokVal? t = some "\x7d" then
      if bal = 1 then ([], rest)
      else
        let (i, r) := braceScan rest (bal - 1)
        (t :: i, r)
    else
      let (i, r) := braceScan rest bal
      (t :: i, r)

/-- The regex `\s` class of the `fstr` whitespace collapse. -/
def isRegexWs (c : Char) : Bool := isJsSpace c || c = '\n'

/-- The punctuation class of `s.replace(/\s+([,!?.])/g, '$1')`. -/
def punctAfterWs : List Char := [',', '!', '?', '.']

/-- Single pass of `s.replace(/\s+([,!?.])/g, '$1')` of the `fstr`
constructor, buffering the current whitespace run: when the run is
followed by one of `, ! ? .` the run is dropped and the punctuation
kept; otherwise the buffer is flushed unchanged. -/
def collapseWsAux : List Char → List Char → List Char
  | buf, [] => buf
  | buf, c :: rest =>
    if isRegexWs c then collapseWsAux (buf ++ [c]) rest
    else if c ∈ punctAfterWs ∧ buf ≠ [] then c :: collapseWsAux [] rest
    else buf ++ c :: collapseWsAux [] rest

/-- `s.replace(/\s+([,!?.])/g, '$1')`: each maximal whitespace run
followed by one of `, ! ? .` is deleted (keeping the punctuation). -/
def collapseWsBefore (l : List Char) : List Char := collapseWsAux [] l

example : String.mk (collapseWsBefore "hi  there , now !".data) =
    "hi  there, now!" := by rfl

/-- The `min.value !== undefined ? min.value : min` unwrap inside the
`random` builtin: primitive wrappers expose their payload; `null` (a
missing argument) makes the host throw a TypeError at the property
read (host message text abridged, without quoting). -/
def unwrapDotValue : Value → Except String Value
  | .vnull => .error "TypeError: Cannot read properties of null"
  | .prim w => .ok w
  | v => .ok v

/-- The `catch` fallback of `Interpreter.evaluateSegment`
(lines 379-389): a lone NUMBER token parses as an integer, a lone
IDENTIFIER is looked up (current scope, then globals, then the name
itself), anything else yields the *first* token's text. -/
def segFallback (tokens : List Tok) (scope : Nat) (st : InterpState) :
    Res Value :=
  match tokens with
  | [.num s] => .ok (parseIntValue s) st
  | [.ident s] =>
    if mapHas (getScope st scope) s then .ok (mapGet (getScope st scope) s) st
    else if mapHas (getScope st 0) s then .ok (mapGet (getScope st 0) s) st
    else .ok (.str s) st
  | t :: _ =>
    match tokVal? t with
    | some s => .ok (.str s) st
    | none => .ok .vnull st
  | [] => .ok .vnull st

mutual

/-- `Interpreter.evaluate` (lines 116-175).  The node is optional
because JS call sites index argument arrays out of range
(`evaluate(undefined) = null`). -/
def evaluate : Nat → Option Expr → Nat → InterpState → Res Value
  | 0, _, _, _ => .timeout
  | fuel+1, node, scope, st =>
    match node with
    | none => .ok .vnull st
    | some e =>
      match e with
      | .lit n => .ok (.num n) st
      | .ident v =>
        if mapHas (getScope st scope) v then
          .ok (mapGet (getScope st scope) v) st
        else if mapHas (getScope st 0) v then
          .ok (mapGet (getScope st 0) v) st
        else .ok (.str v) st
      | .binary l op r =>
        match evaluate fuel (some l) scope st with
        | .ok a st2 =>
          match evaluate fuel (some r) scope st2 with
          | .ok b st3 => .ok (applyOp op a b) st3
          | .err m st3 => .err m st3
          | .timeout => .timeout
        | .err m st2 => .err m st2
        | .timeout => .timeout
      | .call callee args => handleCall fuel callee args scope st
      | .member objE prop =>
        match evaluate fuel (some objE) scope st with
        | .ok o st2 =>
          match memberAccess o prop with
          | .ok v => .ok v st2
          | .error m => .err m st2
        | .err m st2 => .err m st2
        | .timeout => .timeout
      | .typeCons k toks => handleTypeConstruction fuel k toks scope st
termination_by structural fuel _ _ _ => fuel

/-- `Interpreter.execute` (lines 47-114). -/
def execute : Nat → Stmt → Nat → InterpState → Res (Option Ctrl)
  | 0, _, _, _ => .timeout
  | fuel+1, stmt, scope, st =>
    match stmt with
    | .breakStmt => .ok (some .brk) st
    | .continueStmt => .ok (some .cont) st
    | .varDecl name value =>
      match evaluate fuel (some value) scope st with
      | .ok v st2 =>
        .ok none (setScopeMap st2 scope (mapSet (getScope st2 scope) name v))
      | .err m st2 => .err m st2
      | .timeout => .timeout
    | .assign name value =>
      match evaluate fuel (some value) scope st with
      | .ok v st2 =>
        if mapHas (getScope st2 scope) name then
          .ok none (setScopeMap st2 scope (mapSet (getScope st2 scope) name v))
        else if mapHas (getScope st2 0) name then
          .ok none (setScopeMap st2 0 (mapSet (getScope st2 0) name v))
        else .err ("Undefined variable for assignment: " ++ name) st2
      | .err m st2 => .err m st2
      | .timeout => .timeout
    | .funcDecl name params body =>
      .ok none
        (setScopeMap st scope
          (mapSet (getScope st scope) name (.func params body scope)))
    | .ifStmt test consequent alternate =>
      match evaluate fuel (some test) scope st with
      | .ok c st2 =>
        if condTruthy c then executeBlock fuel consequent scope st2
        else
          match alternate with
          | some alt => executeBlock fuel alt scope st2
          | none => .ok none st2
      | .err m st2 => .err m st2
      | .timeout => .timeout
    | .whileStmt test body => whileLoop fuel test body scope st
    | .forStmt init test update body =>
      match execute fuel init scope st with
      | .ok _ st2 => forLoop fuel test update body scope st2
      | .err m st2 => .err m st2
      | .timeout => .timeout
    | .exprStmt e =>
      match evaluate fuel (some e) scope st with
      | .ok _ st2 => .ok none st2
      | .err m st2 => .err m st2
      | .timeout => .timeout
    | .returnStmt value =>
      match evaluate fuel (some value) scope st with
      | .ok v st2 => .ok (some (.ret v)) st2
      | .err m st2 => .err m st2
      | .timeout => .timeout
termination_by structural fuel _ _ _ => fuel

/-- `Interpreter.executeBlock` (lines 38-45): run statements until one
yields a RETURN/BREAK/CONTINUE control value, which is returned to the
caller. -/
def executeBlock : Nat → List Stmt → Nat → InterpState → Res (Option Ctrl)
  | 0, _, _, _ => .timeout
  | fuel+1, stmts, scope, st =>
    match stmts with
    | [] => .ok none st
    | s :: rest =>
      match execute fuel s scope st with
      | .ok (some c) st2 => .ok (some c) st2
      | .ok none st2 => executeBlock fuel rest scope st2
      | .err m st2 => .err m st2
      | .timeout => .timeout
termination_by structural fuel _ _ _ => fuel

/-- The `while (true)` loop of the WhileStatement case (lines 80-90):
exit on a non-truthy test, propagate RETURN, stop on BREAK, loop on
CONTINUE or normal completion. -/
def whileLoop : Nat → Expr → List Stmt → Nat → InterpState → Res (Option Ctrl)
  | 0, _, _, _, _ => .timeout
  | fuel+1, test, body, scope, st =>
    match evaluate fuel (some test) scope st with
    | .ok c st2 =>
      if condTruthy c then
        match executeBlock fuel body scope st2 with
        | .ok (some (.ret v)) st3 => .ok (some (.ret v)) st3
        | .ok (some .brk) st3 => .ok none st3
        | .ok _ st3 => whileLoop fuel test body scope st3
        | .err m st3 => .err m st3
        | .timeout => .timeout
      else .ok none st2
    | .err m st2 => .err m st2
    | .timeout => .timeout
termination_by structural fuel _ _ _ _ => fuel

/-- The loop of the ForStatement case (lines 93-106): like `while`,
but the update statement runs after a normal body pass *and* after a
CONTINUE, not after BREAK/RETURN. -/
def forLoop :
    Nat → Expr → Stmt → List Stmt → Nat → InterpState → Res (Option Ctrl)
  | 0, _, _, _, _, _ => .timeout
  | fuel+1, test, update, body, scope, st =>
    match evaluate fuel (some test) scope st with
    | .ok c st2 =>
      if condTruthy c then
        match executeBlock fuel body scope st2 with
        | .ok (some (.ret v)) st3 => .ok (some (.ret v)) st3
        | .ok (some .brk) st3 => .ok none st3
        | .ok _ st3 =>
          match execute fuel update scope st3 with
          | .ok _ st4 => forLoop fuel test update body scope st4
          | .err m st4 => .err m st4
          | .timeout => .timeout
        | .err m st3 => .err m st3
        | .timeout => .timeout
      else .ok none st2
    | .err m st2 => .err m st2
    | .timeout => .timeout
termination_by structural fuel _ _ _ _ _ => fuel

/-- `Interpreter.handleCall` (lines 196-237): the built-ins `print`,
`random` and `eval` are dispatched on the callee *name* before any
scope lookup; then method calls on OBJECT values; then the general
callee evaluation. -/
def handleCall : Nat → Expr → List Expr → Nat → InterpState → Res Value
  | 0, _, _, _, _ => .timeout
  | fuel+1, callee, args, scope, st =>
    let calleeName : Option String :=
      match callee with
      | .ident v => some v
      | _ => none
    if calleeName = some "print" then
      match evalPrintArgs fuel args scope st with
      | .ok strs st2 =>
        .ok .vnull
          { st2 with
            output := st2.output ++ [(String.intercalate " " strs, false)] }
      | .err m st2 => .err m st2
      | .timeout => .timeout
    else if calleeName = some "random" then
      match evaluate fuel (listAt? args 0) scope st with
      | .ok mn st2 =>
        match evaluate fuel (listAt? args 1) scope st2 with
        | .ok mx st3 =>
          match unwrapDotValue mn with
          | .error m => .err m st3
          | .ok vMin =>
            match unwrapDotValue mx with
            | .error m => .err m st3
            | .ok vMax =>
              let r := st3.rng.headD 0
              let st4 := { st3 with rng := st3.rng.tail }
              let fl : Value :=
                match toNumber? vMin, toNumber? vMax with
                | some a, some b =>
                  .num (Int.floor (r * ((b - a + 1 : Int) : Rat)))
                | _, _ => .nan
              .ok (jsAdd fl vMin) st4
        | .err m st3 => .err m st3
        | .timeout => .timeout
      | .err m st2 => .err m st2
      | .timeout => .timeout
    else if calleeName = some "eval" then
      if args.isEmpty then .ok (.evalCell st.evalResult) st
      else
        match evaluate fuel (listAt? args 0) scope st with
        | .ok v st2 => .ok (.evalCell v) { st2 with evalResult := v }
        | .err m st2 => .err m st2
        | .timeout => .timeout
    else
      match callee with
      | .member objE prop =>
        match evaluate fuel (some objE) scope st with
        | .ok o st2 =>
          match o with
          | .obj props =>
            match mapGet? props prop with
            | some (.func ps body clo) =>
              callUserFunction fuel ps body clo args scope st2
            | _ => callViaCallee fuel callee args calleeName scope st2
          | _ => .err "TypeError: Cannot read properties of undefined" st2
        | .err m st2 => .err m st2
        | .timeout => .timeout
      | _ => callViaCallee fuel callee args calleeName scope st
termination_by structural fuel _ _ _ _ => fuel

/-- The shared tail of `handleCall` (lines 231-236): evaluate the
callee; call it when it is a FUNCTION value, else throw
UnknownFunction (`calleeName` prints as "null" for non-identifier
callees, as in JS). -/
def callViaCallee :
    Nat → Expr → List Expr → Option String → Nat → InterpState → Res Value
  | 0, _, _, _, _, _ => .timeout
  | fuel+1, callee, args, calleeName, scope, st =>
    match evaluate fuel (some callee) scope st with
    | .ok f st2 =>
      match f with
      | .func ps body clo => callUserFunction fuel ps body clo args scope st2
      | _ => .err ("Unknown function: " ++ calleeName.getD "null") st2
    | .err m st2 => .err m st2
    | .timeout => .timeout
termination_by structural fuel _ _ _ _ _ => fuel

/-- The `args.map` of the `print` builtin (lines 200-203): evaluate
each argument in order and format it. -/
def evalPrintArgs : Nat → List Expr → Nat → InterpState → Res (List String)
  | 0, _, _, _ => .timeout
  | fuel+1, args, scope, st =>
    match args with
    | [] => .ok [] st
    | a :: rest =>
      match evaluate fuel (some a) scope st with
      | .ok v st2 =>
        match evalPrintArgs fuel rest scope st2 with
        | .ok l st3 => .ok (formatOutput v :: l) st3
        | .err m st3 => .err m st3
        | .timeout => .timeout
      | .err m st2 => .err m st2
      | .timeout => .timeout
termination_by structural fuel _ _ _ => fuel

/-- `Interpreter.callUserFunction` (lines 239-248): the function scope
is `new Map(func.closure)` — a copy, **made at call time**, of the
scope the closure references — allocated as a fresh heap entry; the
parameters are then bound and the body runs in the new scope; a RETURN
control value supplies the result, else `null`. -/
def callUserFunction :
    Nat → List String → List Stmt → Nat → List Expr → Nat → InterpState →
      Res Value
  | 0, _, _, _, _, _, _ => .timeout
  | fuel+1, params, body, closure, argNodes, callerScope, st =>
    match
      bindParams fuel params argNodes st.scopes.length callerScope
        { st with scopes := st.scopes ++ [getScope st closure] }
    with
    | .ok _ st2 =>
      match executeBlock fuel body st.scopes.length st2 with
      | .ok (some (.ret v)) st3 => .ok v st3
      | .ok _ st3 => .ok .vnull st3
      | .err m st3 => .err m st3
      | .timeout => .timeout
    | .err m st2 => .err m st2
    | .timeout => .timeout
termination_by structural fuel _ _ _ _ _ _ => fuel

/-- The binding loop of `callUserFunction` (lines 241-244): one
iteration per *parameter*; each evaluates `argNodes[i]` in the caller's
scope (`undefined`, hence `null`, past the end of the argument list)
and writes it into the function scope. -/
def bindParams :
    Nat → List String → List Expr → Nat → Nat → InterpState → Res Unit
  | 0, _, _, _, _, _ => .timeout
  | fuel+1, params, argNodes, fref, caller, st =>
    match params with
    | [] => .ok () st
    | p :: ps =>
      match evaluate fuel argNodes.head? caller st with
      | .ok v st2 =>
        bindParams fuel ps argNodes.tail fref caller
          (setScopeMap st2 fref (mapSet (getScope st2 fref) p v))
      | .err m st2 => .err m st2
      | .timeout => .timeout
termination_by structural fuel _ _ _ _ _ => fuel

/-- `Interpreter.handleTypeConstruction` (lines 250-370), dispatching
on the constructor keyword. -/
def handleTypeConstruction :
    Nat → String → List Tok → Nat → InterpState → Res Value
  | 0, _, _, _, _ => .timeout
  | fuel+1, ty, tokens, scope, st =>
    if ty = "int" then .ok (.prim (parseIntValue (getRawString tokens))) st
    else if ty = "str" then
      .ok (.prim (.str (trimStr (strCtorString tokens)))) st
    else if ty = "bool" then
      .ok (.prim (.bool (lowerStr (getRawString tokens) = "true"))) st
    else if ty = "var" then
      match tokens with
      | [] => .err "TypeError: Cannot read properties of undefined" st
      | t :: _ =>
        let varName := tokText t
        if mapHas (getScope st scope) varName then
          .ok (mapGet (getScope st scope) varName) st
        else if mapHas (getScope st 0) varName then
          .ok (mapGet (getScope st 0) varName) st
        else .err ("Undefined variable: " ++ varName) st
    else if ty = "f" ∨ ty = "fobj" then evaluateSegment fuel tokens scope st
    else if ty = "a" then
      match
        evalSegList fuel
          ((splitTopComma tokens).filter (fun s => ¬s.isEmpty)) scope st
      with
      | .ok vs st2 => .ok (.arr vs) st2
      | .err m st2 => .err m st2
      | .timeout => .timeout
    else if ty = "o" ∨ ty = "obj" then
      match evalObjSegs fuel (splitTopComma tokens) [] scope st with
      | .ok props st2 => .ok (.obj props) st2
      | .err m st2 => .err m st2
      | .timeout => .timeout
    else if ty = "fint" ∨ ty = "fstr" then
      match fstrProcess fuel tokens scope st with
      | .ok processed st2 =>
        if ty = "fstr" then
          .ok
            (.prim (.str
              (trimStr (String.mk (collapseWsBefore
                (String.intercalate " " (processed.map tokText)).data)))))
            st2
        else .ok (.prim (parseIntValue (String.join (processed.map tokText)))) st2
      | .err m st2 => .err m st2
      | .timeout => .timeout
    else .ok (.unknownTc tokens) st
termination_by structural fuel _ _ _ _ => fuel

/-- `Interpreter.evaluateSegment` (lines 372-390): try to re-parse the
token slice as one expression and evaluate it; any throw (parse or
evaluation) lands in the fallback. -/
def evaluateSegment : Nat → List Tok → Nat → InterpState → Res Value
  | 0, _, _, _ => .timeout
  | fuel+1, tokens, scope, st =>
    if tokens.isEmpty then .ok .vnull st
    else
      match parseExpressionTop tokens with
      | .ok (e, _) =>
        match evaluate fuel (some e) scope st with
        | .ok v st2 => .ok v st2
        | .err _ st2 => segFallback tokens scope st2
        | .timeout => .timeout
      | .error _ => segFallback tokens scope st
termination_by structural fuel _ _ _ => fuel

/-- The element evaluation of the `a` constructor (lines 280-297),
in segment order. -/
def evalSegList :
    Nat → List (List Tok) → Nat → InterpState → Res (List Value)
  | 0, _, _, _ => .timeout
  | fuel+1, segs, scope, st =>
    match segs with
    | [] => .ok [] st
    | seg :: rest =>
      match evaluateSegment fuel seg scope st with
      | .ok v st2 =>
        match evalSegList fuel rest scope st2 with
        | .ok vs st3 => .ok (v :: vs) st3
        | .err m st3 => .err m st3
        | .timeout => .timeout
      | .err m st2 => .err m st2
      | .timeout => .timeout
termination_by structural fuel _ _ _ => fuel

/-- The property loop of the `obj`/`o` constructor (lines 317-325):
empty segments and segments not led by `prop` are skipped; the key is
the token at index 2 (a host TypeError if the segment is shorter, text
abridged); the value is the segment after the first `=` (the whole
segment when there is none). -/
def evalObjSegs :
    Nat → List (List Tok) → List (String × Value) → Nat → InterpState →
      Res (List (String × Value))
  | 0, _, _, _, _ => .timeout
  | fuel+1, segs, acc, scope, st =>
    match segs with
    | [] => .ok acc st
    | seg :: rest =>
      match seg with
      | [] => evalObjSegs fuel rest acc scope st
      | t0 :: _ =>
        if tokVal? t0 ≠ some "prop" then evalObjSegs fuel rest acc scope st
        else
          match listAt? seg 2 with
          | none => .err "TypeError: Cannot read properties of undefined" st
          | some t2 =>
            let valTokens :=
              match seg.findIdx? (fun t => tokVal? t = some "=") with
              | some i => seg.drop (i + 1)
              | none => seg
            match evaluateSegment fuel valTokens scope st with
            | .ok v st2 =>
              evalObjSegs fuel rest (mapSet acc (tokText t2) v) scope st2
            | .err m st2 => .err m st2
            | .timeout => .timeout
termination_by structural fuel _ _ _ _ => fuel

/-- The template scan of the `fint`/`fstr` constructors
(lines 333-355): tokens outside `{ … }` pass through; each island is
evaluated as a segment and replaced by an IDENTIFIER token holding its
formatted value. -/
def fstrProcess : Nat → List Tok → Nat → InterpState → Res (List Tok)
  | 0, _, _, _ => .timeout
  | fuel+1, tokens, scope, st =>
    match tokens with
    | [] => .ok [] st
    | t :: rest =>
      if tokVal? t = some "\x7b" then
        match evaluateSegment fuel (braceScan rest 1).1 scope st with
        | .ok v st2 =>
          match fstrProcess fuel (braceScan rest 1).2 scope st2 with
          | .ok l st3 => .ok (Tok.ident (formatOutput v) :: l) st3
          | .err m st3 => .err m st3
          | .timeout => .timeout
        | .err m st2 => .err m st2
        | .timeout => .timeout
      else
        match fstrProcess fuel rest scope st with
        | .ok l st2 => .ok (t :: l) st2
        | .err m st2 => .err m st2
        | .timeout => .timeout
termination_by structural fuel _ _ _ => fuel

end

/-- `Interpreter.run` (lines 29-36): execute the program body in the
global scope; a thrown error is caught at this top frame, reported to
the output sink as `"Error: " + message` with the error flag set, and
**not** re-raised (the JS catch ends with a host `console.error` log
and returns normally).  The timeout arm is an artifact of the fuel
embedding (the JS loop may diverge; no settled claim runs out of
fuel). -/
def run (fuel : Nat) (body : List Stmt) (st : InterpState) : InterpState :=
  match executeBlock fuel body 0 st with
  | .ok _ st2 => st2
  | .err m st2 =>
    { st2 with output := st2.output ++ [("Error: " ++ m, true)] }
  | .timeout => st

/-! ## Helper lemmas shared by the claim theorems -/

/-- `m.set(k, v)` followed by `m.get(k)` yields `v`. -/
theorem mapGet_mapSet_self (m : List (String × Value)) (k : String) (v : Value) :
    mapGet (mapSet m k v) k = v := by
  induction m with
  | nil => simp [mapSet, mapGet, mapGet?, List.find?]
  | cons kv rest ih =>
    by_cases h : kv.1 = k
    · simp [mapSet, h, mapGet, mapGet?, List.find?]
    · simpa [mapSet, h, mapGet, mapGet?, List.find?] using ih

/-- `m.set(k, v)` makes `m.has(k)` true. -/
theorem mapHas_mapSet_self (m : List (String × Value)) (k : String) (v : Value) :
    mapHas (mapSet m k v) k = true := by
  induction m with
  | nil => simp [mapSet, mapHas, List.find?]
  | cons kv rest ih =>
    by_cases h : kv.1 = k
    · simp [mapSet, h, mapHas, List.find?]
    · simpa [mapSet, h, mapHas, List.find?] using ih

/-! ## Claim C3 — top-level error reporting -/

/-- Counterexample to C3: the top-level frame reports
`"Error: <message>"`, not `"Runtime Error: <message>"`, and returns
normally instead of re-raising.  Assigning to the unbound `y` raises
UndefinedVariable with message "Undefined variable for assignment: y";
the line written to the sink carries the `Error: ` prefix. -/
theorem claim_C3_counterexample :
    (run 10 [.assign "y" (.lit 1)] initState).output =
      [("Error: Undefined variable for assignment: y", true)] ∧
    "Error: Undefined variable for assignment: y" ≠
      "Runtime Error: Undefined variable for assignment: y" := by
  exact ⟨rfl, by decide⟩

/-- C3 as amended: when a runtime error with message `m` propagates to
the top-level frame, `run` appends `("Error: " ++ m)` to the output
sink with the error flag set, leaves the rest of the state as the
failed execution left it, and returns normally (no re-raise; the JS
catch ends in a host console log). -/
theorem claim_C3 (fuel : Nat) (body : List Stmt) (st st2 : InterpState)
    (m : String) (h : executeBlock fuel body 0 st = .err m st2) :
    run fuel body st =
      { st2 with output := st2.output ++ [("Error: " ++ m, true)] } := by
  simp [run, h]

/-- Witness for `claim_C3` at the counterexample program. -/
theorem claim_C3_witness :
    run 10 [.assign "y" (.lit 1)] initState =
      { initState with
        output := [("Error: Undefined variable for assignment: y", true)] } := by
  exact claim_C3 10 [.assign "y" (.lit 1)] initState initState
    "Undefined variable for assignment: y" rfl

/-! ## Claim C4 — the f/fobj parse-failure fallback -/

/-- Counterexample to C4: the body `,` `,` (the program text `f[,,]`)
fails to re-parse as an expression, and the constructor yields the
*first* token's text `","`, not the concatenation `",,"` of the body's
token texts. -/
theorem claim_C4_counterexample :
    handleTypeConstruction 10 "f" [.sym ",", .sym ","] 0 initState =
      .ok (.str ",") initState ∧
    getRawString [.sym ",", .sym ","] = ",," ∧
    "," ≠ ",," := by
  exact ⟨rfl, rfl, by decide⟩

/-- C4 as amended: when the non-empty body (of at least two tokens) of
an `f`/`fobj` constructor fails to re-parse as a single expression, the
constructor yields the *first* body token's text as a string (the host
`undefined` for a token with no text); a one-token body instead takes
the dedicated number/identifier fallbacks of `evaluateSegment`. -/
theorem claim_C4 (n : Nat) (ty : String) (t0 t1 : Tok) (rest : List Tok)
    (scope : Nat) (st : InterpState) (e : String)
    (hty : ty = "f" ∨ ty = "fobj")
    (h : parseExpressionTop (t0 :: t1 :: rest) = .error e) :
    handleTypeConstruction (n + 2) ty (t0 :: t1 :: rest) scope st =
      (match tokVal? t0 with
       | some s => .ok (.str s) st
       | none => .ok .vnull st) := by
  rcases hty with hty | hty <;>
    · subst hty
      simp [handleTypeConstruction, evaluateSegment, h, segFallback]

/-- Witness for `claim_C4` at the counterexample body. -/
theorem claim_C4_witness :
    handleTypeConstruction 5 "f" [.sym ",", .sym ","] 0 initState =
      .ok (.str ",") initState := by
  exact claim_C4 3 "f" (.sym ",") (.sym ",") [] 0 initState
    ("Unexpected token: " ++ "\x7b\"type\":\"SYMBOL\",\"value\":\",\"\x7d")
    (Or.inl rfl) rfl

/-! ## Claim C5 — dynamic member syntax -/

/-- Counterexample to C5: parsing the expression `o.{x}` does not
produce a dynamic Member node — the parser throws the SyntaxError
"Expected identifier or number after dot" (and the Member node shape
has no `dynamic` field at all). -/
theorem claim_C5_counterexample :
    parseExpressionTop
        [Tok.ident "o", Tok.sym ".", Tok.sym "\x7b", Tok.ident "x",
         Tok.sym "\x7d"] =
      .error "Expected identifier or number after dot" := by
  rfl

/-- C5 as amended: after a postfix `.` the parser accepts only an
identifier or a number token; a `{` there (the `o.{expr}` form) is
rejected with the SyntaxError "Expected identifier or number after
dot", whatever follows. -/
theorem claim_C5 (rest : List Tok) (n : Nat) :
    parseExpression (n + 6)
        (Tok.ident "o" :: Tok.sym "." :: Tok.sym "\x7b" :: rest) 0 =
      .error "Expected identifier or number after dot" := by
  rfl

/-! ## Claim C6 — the random builtin -/

/-- Counterexample to C6: calling `random` with the single array
argument `a[1, 2]` does not pick an element of the array — the builtin
unconditionally evaluates a second argument (`undefined`, hence
`null`) and the host throws a TypeError reading `.value` of it. -/
theorem claim_C6_counterexample :
    handleCall 10 (.ident "random")
        [.typeCons "a" [.num "1", .sym ",", .num "2"]] 0 initState =
      .err "TypeError: Cannot read properties of null" initState := by
  rfl

/-- C6 as amended: `random(min, max)` with integer endpoints consumes
one host RNG draw `r` and returns `floor(r * (max - min + 1)) + min`,
an integer in `[min, max]` inclusive whenever `0 ≤ r < 1` and
`min ≤ max` (uniform exactly when the host draw is uniform); a
single-argument call does not pick from an array but throws a host
TypeError (see the counterexample). -/
theorem claim_C6 (n : Nat) (mn mx : Int) (r : Rat) (rest : List Rat)
    (scope : Nat) (st : InterpState)
    (hrng : st.rng = r :: rest)
    (hr0 : 0 ≤ r) (hr1 : r < 1) (hle : mn ≤ mx) :
    handleCall (n + 2) (.ident "random") [.lit mn, .lit mx] scope st =
      .ok (.num (Int.floor (r * ((mx - mn + 1 : Int) : Rat)) + mn))
        { st with rng := rest } ∧
    mn ≤ Int.floor (r * ((mx - mn + 1 : Int) : Rat)) + mn ∧
    Int.floor (r * ((mx - mn + 1 : Int) : Rat)) + mn ≤ mx := by
  have hK : (0 : Rat) < ((mx - mn + 1 : Int) : Rat) := by
    have h1 : (0 : Int) < mx - mn + 1 := by omega
    exact_mod_cast h1
  have h0 : 0 ≤ Int.floor (r * ((mx - mn + 1 : Int) : Rat)) := by
    rw [Int.le_floor]
    exact_mod_cast mul_nonneg hr0 (le_of_lt hK)
  have h2 : Int.floor (r * ((mx - mn + 1 : Int) : Rat)) < mx - mn + 1 := by
    rw [Int.floor_lt]
    exact mul_lt_of_lt_one_left hK hr1
  refine ⟨?_, by omega, by omega⟩
  simp [handleCall, evaluate, listAt?, unwrapDotValue, toNumber?, jsAdd,
    isStringyAdd, hrng]

/-- Witness for `claim_C6` at `random(3, 5)` with the host draw 1/2. -/
theorem claim_C6_witness :
    handleCall 5 (.ident "random") [.lit 3, .lit 5] 0
        { initState with rng := [(1 : Rat) / 2] } =
      .ok (.num (Int.floor ((1 : Rat) / 2 * ((5 - 3 + 1 : Int) : Rat)) + 3))
        { { initState with rng := [(1 : Rat) / 2] } with rng := [] } ∧
    (3 : Int) ≤ Int.floor ((1 : Rat) / 2 * ((5 - 3 + 1 : Int) : Rat)) + 3 ∧
    Int.floor ((1 : Rat) / 2 * ((5 - 3 + 1 : Int) : Rat)) + 3 ≤ 5 := by
  exact claim_C6 3 3 5 ((1 : Rat) / 2) [] 0
    { initState with rng := [(1 : Rat) / 2] } rfl (by norm_num) (by norm_num)
    (by norm_num)

/-! ## Claim C7 — Assign / VarDecl scope semantics -/

/-- The C7 counterexample program:

    func [outer()]
        func [inner()]
            g = int[99]
            return int[0]
        return inner
    var [h] = outer()
    var [g] = int[1]
    y = h()

`inner`'s closure references `outer`'s call scope, whose call-time copy
predates the global `g`; the assignment `g = 99` inside `inner`
therefore write-through-mutates the **global** `g`.  The enclosing
statement `y = h()` then raises UndefinedVariable for `y` — after its
right-hand side already changed the global scope. -/
def progC7 : List Stmt :=
  [.funcDecl "outer" []
    [.funcDecl "inner" [] [.assign "g" (.lit 99), .returnStmt (.lit 0)],
     .returnStmt (.ident "inner")],
   .varDecl "h" (.call (.ident "outer") []),
   .varDecl "g" (.lit 1),
   .assign "y" (.call (.ident "h") [])]

/-- Counterexample to C7: executing the final Assign of `progC7` raises
UndefinedVariable (the reported message names `y`), yet the global
scope is *not* left unchanged — `g`, bound to 1 before the statement,
ends at 99 because the right-hand side is evaluated before the
assignability check and mutates the global. -/
theorem claim_C7_counterexample :
    (run 50 progC7 initState).output =
      [("Error: Undefined variable for assignment: y", true)] ∧
    mapGet (getScope (run 50 progC7 initState) 0) "g" = .num 99 ∧
    Value.num 99 ≠ Value.num 1 := by
  exact ⟨rfl, rfl, by simp⟩

/-- C7 as amended: an Assign first evaluates its right-hand side (which
may itself mutate scopes, e.g. through calls that write through to
globals); *then*, in the state the evaluation produced, it mutates the
current scope if that already contains the name, else the global scope
if that contains it, and otherwise raises UndefinedVariable, creating
no binding and leaving the state exactly as the right-hand side left
it.  A VarDecl always writes into the current scope.  The last two
conjuncts check the write really binds the name to the value. -/
theorem claim_C7 (n : Nat) (name : String) (e : Expr) (scope : Nat)
    (st st2 : InterpState) (v : Value)
    (h : evaluate n (some e) scope st = .ok v st2) :
    execute (n + 1) (.varDecl name e) scope st =
      .ok none (setScopeMap st2 scope (mapSet (getScope st2 scope) name v)) ∧
    execute (n + 1) (.assign name e) scope st =
      (if mapHas (getScope st2 scope) name then
        .ok none (setScopeMap st2 scope (mapSet (getScope st2 scope) name v))
      else if mapHas (getScope st2 0) name then
        .ok none (setScopeMap st2 0 (mapSet (getScope st2 0) name v))
      else .err ("Undefined variable for assignment: " ++ name) st2) ∧
    mapGet (mapSet (getScope st2 scope) name v) name = v ∧
    mapHas (mapSet (getScope st2 scope) name v) name = true := by
  refine ⟨by simp [execute, h], ?_, mapGet_mapSet_self _ _ _,
    mapHas_mapSet_self _ _ _⟩
  by_cases h1 : mapHas (getScope st2 scope) name <;>
    by_cases h2 : mapHas (getScope st2 0) name <;>
    simp [execute, h, h1, h2]

/-- Witness for `claim_C7`: assigning to `y` in the empty initial state
(current scope is the global scope) raises UndefinedVariable, while the
VarDecl form binds `y`. -/
theorem claim_C7_witness :
    execute 2 (.varDecl "y" (.lit 5)) 0 initState =
      .ok none
        (setScopeMap initState 0 (mapSet (getScope initState 0) "y" (.num 5))) ∧
    execute 2 (.assign "y" (.lit 5)) 0 initState =
      (if mapHas (getScope initState 0) "y" then
        .ok none
          (setScopeMap initState 0 (mapSet (getScope initState 0) "y" (.num 5)))
      else if mapHas (getScope initState 0) "y" then
        .ok none
          (setScopeMap initState 0 (mapSet (getScope initState 0) "y" (.num 5)))
      else .err ("Undefined variable for assignment: " ++ "y") initState) ∧
    mapGet (mapSet (getScope initState 0) "y" (.num 5)) "y" = .num 5 ∧
    mapHas (mapSet (getScope initState 0) "y" (.num 5)) "y" = true := by
  exact claim_C7 1 "y" (.lit 5) 0 initState initState (.num 5) rfl

/-! ## Claim C8 — Identifier evaluation -/

/-- C8 confirmed: an Identifier evaluates to the binding in the current
scope when present, else to the binding in the global scope when
present, and otherwise to the identifier's own name as a string value —
never an error, and the state is untouched. -/
theorem claim_C8 (n : Nat) (name : String) (scope : Nat) (st : InterpState) :
    (mapHas (getScope st scope) name = true →
      evaluate (n + 1) (some (.ident name)) scope st =
        .ok (mapGet (getScope st scope) name) st) ∧
    (mapHas (getScope st scope) name = false →
      mapHas (getScope st 0) name = true →
      evaluate (n + 1) (some (.ident name)) scope st =
        .ok (mapGet (getScope st 0) name) st) ∧
    (mapHas (getScope st scope) name = false →
      mapHas (getScope st 0) name = false →
      evaluate (n + 1) (some (.ident name)) scope st =
        .ok (.str name) st) := by
  refine ⟨fun h1 => ?_, fun h1 h2 => ?_, fun h1 h2 => ?_⟩ <;>
    simp [evaluate, h1] <;> simp [h2]

/-- Witness for `claim_C8`: the unbound name `zz` evaluates to the
string "zz" in the empty initial state. -/
theorem claim_C8_witness :
    evaluate 3 (some (.ident "zz")) 0 initState = .ok (.str "zz") initState := by
  exact (claim_C8 2 "zz" 0 initState).2.2 rfl rfl

/-! ## Claim C9 — constructor idempotence -/

/-- C9 confirmed: in any scope and state, `int[42]` evaluates to the
same value (and same state) as `fint[{42}]`, and `str[hello]` to the
same value as `fstr[hello]`; both sides reduce to the primitive 42 and
the primitive string "hello" respectively. -/
theorem claim_C9 (n : Nat) (scope : Nat) (st : InterpState) :
    handleTypeConstruction (n + 4) "int" [Tok.num "42"] scope st =
      handleTypeConstruction (n + 4) "fint"
        [Tok.sym "\x7b", Tok.num "42", Tok.sym "\x7d"] scope st ∧
    handleTypeConstruction (n + 4) "str" [Tok.ident "hello"] scope st =
      handleTypeConstruction (n + 4) "fstr" [Tok.ident "hello"] scope st ∧
    handleTypeConstruction (n + 4) "int" [Tok.num "42"] scope st =
      .ok (.prim (.num 42)) st ∧
    handleTypeConstruction (n + 4) "str" [Tok.ident "hello"] scope st =
      .ok (.prim (.str "hello")) st := by
  exact ⟨rfl, rfl, rfl, rfl⟩

/-! ## Claim C10 — arity handling of user-function calls -/

theorem listGetD_set_self (l : List (List (String × Value))) (i : Nat)
    (a d : List (String × Value)) (h : i < l.length) :
    (l.set i a).getD i d = a := by
  induction l generalizing i with
  | nil => simp at h
  | cons x xs ih =>
    cases i with
    | zero => simp
    | succ j =>
      simp only [List.set_cons_succ, List.getD_cons_succ]
      exact ih j (by simpa using h)

theorem listSet_getD_self (l : List (List (String × Value))) (i : Nat)
    (d : List (String × Value)) (h : i < l.length) :
    l.set i (l.getD i d) = l := by
  induction l generalizing i with
  | nil => simp at h
  | cons x xs ih =>
    cases i with
    | zero => simp
    | succ j =>
      simp only [List.getD_cons_succ, List.set_cons_succ, List.cons.injEq,
        true_and]
      exact ih j (by simpa using h)

/-- Reading a scope just written reads the written map. -/
theorem getScope_setScopeMap_self (st : InterpState) (r : Nat)
    (m : List (String × Value)) (h : r < st.scopes.length) :
    getScope (setScopeMap st r m) r = m := by
  show (st.scopes.set r m).getD r [] = m
  exact listGetD_set_self _ _ _ _ h

/-- Writing a scope's current contents back is the identity. -/
theorem setScope_getScope_self (st : InterpState) (r : Nat)
    (h : r < st.scopes.length) : setScopeMap st r (getScope st r) = st := by
  cases st with
  | mk sc o e g =>
    show InterpState.mk (sc.set r (sc.getD r [])) o e g = InterpState.mk sc o e g
    rw [listSet_getD_self sc r [] h]

/-- Two writes to one scope keep the second. -/
theorem setScopeMap_setScopeMap (st : InterpState) (r : Nat)
    (m1 m2 : List (String × Value)) :
    setScopeMap (setScopeMap st r m1) r m2 = setScopeMap st r m2 := by
  simp [setScopeMap]

/-- Writing a scope does not change the heap size. -/
theorem length_setScopeMap (st : InterpState) (r : Nat)
    (m : List (String × Value)) :
    (setScopeMap st r m).scopes.length = st.scopes.length := by
  simp [setScopeMap]

/-- The binding loop only reads the first `params.length` argument
expressions: dropping the surplus is invisible. -/
theorem bindParams_take (fuel : Nat) :
    ∀ (ps : List String) (args : List Expr) (fref caller : Nat)
      (st : InterpState),
      bindParams fuel ps args fref caller st =
        bindParams fuel ps (args.take ps.length) fref caller st := by
  induction fuel with
  | zero => intro ps args fref caller st; rfl
  | succ fuel ih =>
    intro ps args fref caller st
    cases ps with
    | nil => rfl
    | cons p ps =>
      cases args with
      | nil => rfl
      | cons a rest =>
        simp only [bindParams, List.length_cons, List.take_succ_cons,
          List.head?_cons, List.tail_cons]
        cases hev : evaluate fuel (some a) caller st with
        | ok v st2 => exact ih ps rest fref caller _
        | err m st2 => rfl
        | timeout => rfl

/-- C10 confirmed.  First conjunct: a user-function call is unchanged
by discarding surplus arguments — argument expressions beyond the
parameter count are never evaluated.  Second conjunct: a call that
supplies *no* arguments still binds every parameter, to the host null
(no arity error; one fuel tick per parameter plus one).  Third
conjunct: that null formats as "undefined". -/
theorem claim_C10 :
    (∀ (n : Nat) (params : List String) (body : List Stmt)
       (closure : Nat) (args : List Expr) (caller : Nat) (st : InterpState),
       callUserFunction n params body closure args caller st =
         callUserFunction n params body closure (args.take params.length)
           caller st) ∧
    (∀ (n : Nat) (ps : List String) (fref caller : Nat) (st : InterpState),
       fref < st.scopes.length →
       bindParams (ps.length + n + 1) ps [] fref caller st =
         .ok ()
           (setScopeMap st fref
             (ps.foldl (fun m p => mapSet m p .vnull) (getScope st fref)))) ∧
    formatOutput .vnull = "undefined" := by
  refine ⟨fun n params body closure args caller st => ?_,
    fun n ps fref caller => ?_, rfl⟩
  · cases n with
    | zero => rfl
    | succ m =>
      simp only [callUserFunction]
      rw [bindParams_take]
  · induction ps with
    | nil =>
      intro st h
      simpa [bindParams] using (setScope_getScope_self st fref h).symm
    | cons p ps ih =>
      intro st h
      have hF : (p :: ps).length + n + 1 = ps.length + n + 1 + 1 := by
        simp only [List.length_cons]
        omega
      rw [hF]
      have step :
          bindParams (ps.length + n + 1 + 1) (p :: ps) [] fref caller st =
            bindParams (ps.length + n + 1) ps [] fref caller
              (setScopeMap st fref (mapSet (getScope st fref) p .vnull)) := by
        rfl
      rw [step, ih _ (by rw [length_setScopeMap]; exact h)]
      rw [getScope_setScopeMap_self st fref _ h, setScopeMap_setScopeMap]
      simp only [List.foldl_cons]

/-- Witness for `claim_C10` (its second conjunct carries the
hypothesis `fref < |scopes|`): binding two parameters against an empty
argument list in the initial state binds both to null without an
error. -/
theorem claim_C10_witness :
    bindParams 3 ["p", "q"] [] 0 0 initState =
      .ok ()
        { scopes := [[("p", Value.vnull), ("q", Value.vnull)]], output := [],
          evalResult := .vnull, rng := [] } := by
  exact claim_C10.2.1 0 ["p", "q"] 0 0 initState (by decide)

/-! ## Claim C1 — closure capture -/

/-- The C1 probe program:

    var [x] = 1
    func [f()]
        return x
    x = 2
    print(f())

Under snapshot-at-declaration capture this would print 1; the code
prints 2. -/
def progC1 : List Stmt :=
  [.varDecl "x" (.lit 1),
   .funcDecl "f" [] [.returnStmt (.ident "x")],
   .assign "x" (.lit 2),
   .exprStmt (.call (.ident "print") [.call (.ident "f") []])]

/-- Counterexample to C1: the assignment `x = 2`, made after the
declaration of `f` and before its call, **is** visible when the body
executes — the program prints "2", not the "1" a declaration-time
snapshot would give. -/
theorem claim_C1_counterexample :
    (run 50 progC1 initState).output = [("2", false)] ∧
    ("2", false) ≠ ("1", false) := by
  exact ⟨rfl, by decide⟩

/-- C1 as amended: `FunctionDeclaration` stores the enclosing scope by
**live reference** (the heap index), and the bindings are copied when
the function is *called* (`new Map(func.closure)` in
`callUserFunction`), not at declaration time.  Hence for any initial
and updated values `a`, `b`: after declaring `f` and then assigning
`x = b`, calling `f()` yields `b` — the post-declaration assignment is
visible — and the call-time copy of the scope (the second heap entry
of the final state) carries `b` as well. -/
theorem claim_C1 (a b : Int) (n : Nat) :
    executeBlock (n + 5)
        [.varDecl "x" (.lit a),
         .funcDecl "f" [] [.returnStmt (.ident "x")],
         .assign "x" (.lit b)] 0 initState =
      .ok none
        { scopes :=
            [[("x", Value.num b),
              ("f", Value.func [] [.returnStmt (.ident "x")] 0)]],
          output := [], evalResult := .vnull, rng := [] } ∧
    evaluate (n + 8) (some (.call (.ident "f") [])) 0
        { scopes :=
            [[("x", Value.num b),
              ("f", Value.func [] [.returnStmt (.ident "x")] 0)]],
          output := [], evalResult := .vnull, rng := [] } =
      .ok (.num b)
        { scopes :=
            [[("x", Value.num b),
              ("f", Value.func [] [.returnStmt (.ident "x")] 0)],
             [("x", Value.num b),
              ("f", Value.func [] [.returnStmt (.ident "x")] 0)]],
          output := [], evalResult := .vnull, rng := [] } := by
  exact ⟨rfl, rfl⟩

/-! ## Claim C2 — Indent/Dedent balance -/

/-- Counterexample to C2: the lexer accepts "a⏎⟨8 spaces⟩b" (it accepts
every input), emits a *single* INDENT for the 8-space jump, but two
DEDENTs to close it (the closing loop subtracts 4 per DEDENT), so the
counts differ. -/
theorem claim_C2_counterexample :
    countIndent (tokenize "a\n        b") = 1 ∧
    countDedent (tokenize "a\n        b") = 2 ∧ (1 : Nat) ≠ 2 := by
  have h : tokenize "a\n        b" =
      [Tok.ident "a", Tok.newline, Tok.indent 8, Tok.ident "b",
       Tok.dedent, Tok.dedent] := by
    simp [tokenize, tokenizeAux, handleIndentation, countLeading, readWhile,
      finalDedents, dedentLoop, isJsSpace, isIdentStart, isIdentChar,
      isNumChar, symChars]
  rw [h]
  exact ⟨rfl, rfl, by decide⟩

/-- A line's content in the well-indented input family of the amended
C2: non-empty, free of newline characters, and starting with a
character other than space, tab, or '#' — so the line is neither blank
nor comment-only (the lexer leaves `currentIndent` untouched on those,
which breaks the balance) and its measured indentation is exactly its
leading spaces.  Beyond that the content is arbitrary: identifiers,
numbers, symbols, brackets, inner whitespace, inner comments, unknown
characters. -/
def lineOk (w : List Char) : Bool :=
  (match w with
   | [] => false
   | c :: _ => decide (c ≠ ' ' ∧ c ≠ '\t' ∧ c ≠ '\n' ∧ c ≠ '#')) &&
  w.all (fun c => decide (c ≠ '\n'))

/-- One line of the input family: `4 * lvl` spaces of indentation, then
the content. -/
def lineChars (lvl : Nat) (w : List Char) : List Char :=
  List.replicate (4 * lvl) ' ' ++ w

/-- The newline-prefixed continuation of a program: each entry is a
line (indent level in 4-space units, content). -/
def tailChars : List (Nat × List Char) → List Char
  | [] => []
  | (l, w) :: rest => '\n' :: (lineChars l w ++ tailChars rest)

/-- The chain condition of the amended C2: every line is well formed
and no line indents more than one 4-space level past the previous
line's level. -/
def chainOk : Nat → List (Nat × List Char) → Bool
  | _, [] => true
  | prev, (l, w) :: rest =>
    decide (l ≤ prev + 1) && lineOk w && chainOk l rest

/-- Unpack `lineOk`. -/
theorem lineOk_facts (w : List Char) (hw : lineOk w = true) :
    (∃ c cs, w = c :: cs ∧ c ≠ ' ' ∧ c ≠ '\t' ∧ c ≠ '\n' ∧ c ≠ '#') ∧
    (∀ x ∈ w, x ≠ '\n') := by
  cases w with
  | nil => simp [lineOk] at hw
  | cons c cs =>
    simp only [lineOk, Bool.and_eq_true, decide_eq_true_eq,
      List.all_eq_true] at hw
    refine ⟨⟨c, cs, rfl, hw.1.1, hw.1.2.1, hw.1.2.2.1, hw.1.2.2.2⟩, ?_⟩
    intro x hx
    simpa using hw.2 x hx

/-- The closing loop on a multiple of 4 emits exactly that many
DEDENTs. -/
theorem finalDedents_mul : ∀ k : Nat,
    finalDedents (4 * k) = List.replicate k Tok.dedent := by
  intro k
  induction k with
  | zero => rw [finalDedents]; simp
  | succ k ih =>
    rw [finalDedents]
    have h4 : 4 * (k + 1) - 4 = 4 * k := by omega
    simp only [h4, ih]
    have hpos : 0 < 4 * (k + 1) := by omega
    simp [hpos, List.replicate_succ]

/-- The dedent loop from `4 * (a + d)` down to `4 * a` emits exactly
`d` DEDENTs. -/
theorem dedentLoop_mul : ∀ (d a : Nat),
    dedentLoop (4 * a) (4 * (a + d)) = List.replicate d Tok.dedent := by
  intro d
  induction d with
  | zero => intro a; rw [dedentLoop]; simp
  | succ d ih =>
    intro a
    rw [dedentLoop]
    have hlt : 4 * a < 4 * (a + (d + 1)) := by omega
    have h4 : 4 * (a + (d + 1)) - 4 = 4 * (a + d) := by omega
    simp only [hlt, if_pos, h4, ih]
    simp [List.replicate_succ]

/-- Measuring the leading whitespace of a replicated-space prefix. -/
theorem countLeading_replicate : ∀ (n : Nat) (c : Char) (cs : List Char),
    c ≠ ' ' → c ≠ '\t' →
    countLeading (List.replicate n ' ' ++ c :: cs) = (n, c :: cs) := by
  intro n c cs h1 h2
  induction n with
  | zero => simp [countLeading, h1, h2]
  | succ n ih => simp [List.replicate_succ, countLeading, ih]

/-- `readWhile` consumes exactly an all-satisfying prefix when the
following character fails the test. -/
theorem readWhile_all_append (p : Char → Bool) :
    ∀ (xs rest : List Char), (∀ c ∈ xs, p c = true) →
      (match rest with | [] => True | r :: _ => p r = false) →
      readWhile p (xs ++ rest) = (xs, rest) := by
  intro xs
  induction xs with
  | nil =>
    intro rest _ hrest
    cases rest with
    | nil => rfl
    | cons r rs => simp [readWhile, hrest]
  | cons x xs ih =>
    intro rest hall hrest
    have hx : p x = true := hall x (by simp)
    have ihh := ih rest (fun c hc => hall c (by simp [hc])) hrest
    simp [readWhile, hx, ihh]

/-- `readWhile` distributes over an append whose right part starts
with a failing character (or is empty). -/
theorem readWhile_append (p : Char → Bool) :
    ∀ (cs tail : List Char),
      (match tail with | [] => True | t :: _ => p t = false) →
      readWhile p (cs ++ tail) =
        ((readWhile p cs).1, (readWhile p cs).2 ++ tail) := by
  intro cs
  induction cs with
  | nil =>
    intro tail htail
    cases tail with
    | nil => rfl
    | cons t ts => simp [readWhile, htail]
  | cons x cs ih =>
    intro tail htail
    by_cases hx : p x = true
    · simp [readWhile, hx, ih tail htail]
    · simp [readWhile, hx]

/-- The unconsumed rest of `readWhile` is made of input characters. -/
theorem readWhile_rest_mem (p : Char → Bool) :
    ∀ (cs : List Char) (x : Char), x ∈ (readWhile p cs).2 → x ∈ cs := by
  intro cs
  induction cs with
  | nil => intro x hx; simp [readWhile] at hx
  | cons c cs ih =>
    intro x hx
    by_cases hc : p c = true
    · simp only [readWhile, hc, if_pos] at hx
      exact List.mem_cons_of_mem _ (ih x hx)
    · simp only [readWhile, hc, if_neg] at hx
      simpa using hx

/-- Count step for an arbitrary head token. -/
theorem countIndent_cons (t : Tok) (L : List Tok) :
    countIndent (t :: L) =
      (match t with | Tok.indent _ => 1 | _ => 0) + countIndent L := by
  cases t <;> simp [countIndent, List.countP_cons, Nat.add_comm]

/-- Count step for an arbitrary head token. -/
theorem countDedent_cons (t : Tok) (L : List Tok) :
    countDedent (t :: L) =
      (match t with | Tok.dedent => 1 | _ => 0) + countDedent L := by
  cases t <;> simp [countDedent, List.countP_cons, Nat.add_comm]

/-- INDENT count of a replicated DEDENT list. -/
theorem countIndent_replicate_dedent : ∀ k,
    countIndent (List.replicate k Tok.dedent) = 0 := by
  intro k
  induction k with
  | zero => rfl
  | succ k ih =>
    rw [List.replicate_succ]
    simp only [countIndent] at ih
    simp [countIndent, List.countP_cons, ih]

/-- DEDENT count of a replicated DEDENT list. -/
theorem countDedent_replicate_dedent : ∀ k,
    countDedent (List.replicate k Tok.dedent) = k := by
  intro k
  induction k with
  | zero => rfl
  | succ k ih =>
    rw [List.replicate_succ]
    simp only [countDedent] at ih
    simp [countDedent, List.countP_cons, ih]

/-- Small count facts used to keep the balance bookkeeping opaque to
`omega`. -/
theorem countIndent_indent_one (k : Nat) :
    countIndent [Tok.indent k] = 1 := rfl

theorem countDedent_indent_one (k : Nat) :
    countDedent [Tok.indent k] = 0 := rfl

theorem countIndent_nil : countIndent [] = 0 := rfl

theorem countDedent_nil : countDedent [] = 0 := rfl

/-- Lexing arbitrary newline-free line content, followed by end of
input or a newline, emits no INDENT or DEDENT token and leaves the
current indent untouched: every branch of the main lexer loop — inner
whitespace, inner comments, one- and two-character symbols, brackets,
identifiers, numbers, and skipped unknown characters — consumes within
the line and emits only non-indentation tokens.  Stated over a length
bound to get a plain induction. -/
theorem lineLexAux : ∀ (n : Nat) (content tail : List Char) (cur : Nat),
    content.length ≤ n →
    (∀ c ∈ content, c ≠ '\n') →
    (match tail with | [] => True | t :: _ => t = '\n') →
    countIndent (tokenizeAux (content ++ tail) cur) =
      countIndent (tokenizeAux tail cur) ∧
    countDedent (tokenizeAux (content ++ tail) cur) =
      countDedent (tokenizeAux tail cur) := by
  intro n
  induction n with
  | zero =>
    intro content tail cur hlen _ _
    cases content with
    | nil => exact ⟨rfl, rfl⟩
    | cons c cs => simp at hlen
  | succ n ihn =>
    intro content tail cur hlen hnl htail
    cases content with
    | nil => exact ⟨rfl, rfl⟩
    | cons c cs =>
      have hlcs : cs.length ≤ n := by
        simp only [List.length_cons] at hlen
        omega
      have hcn : c ≠ '\n' := hnl c (by simp)
      have hcsnl : ∀ x ∈ cs, x ≠ '\n' := fun x hx => hnl x (by simp [hx])
      rw [List.cons_append, tokenizeAux, if_neg hcn]
      by_cases hsp : isJsSpace c = true
      · rw [if_pos hsp]
        exact ihn cs tail cur hlcs hcsnl htail
      · rw [if_neg hsp]
        by_cases hhash : c = '#'
        · rw [if_pos hhash]
          have hr : readWhile (· ≠ '\n') (cs ++ tail) = (cs, tail) := by
            apply readWhile_all_append
            · intro x hx
              simpa using hcsnl x hx
            · cases tail with
              | nil => trivial
              | cons t ts =>
                have htn : t = '\n' := htail
                simp [htn]
          rw [hr]
          exact ⟨rfl, rfl⟩
        · rw [if_neg hhash]
          by_cases hsym : c ∈ symChars
          · rw [if_pos hsym]
            cases cs with
            | nil =>
              simp only [List.nil_append]
              have hh : tail.head? ≠ some '=' := by
                cases tail with
                | nil => simp
                | cons t ts =>
                  have htn : t = '\n' := htail
                  simp [htn]
              rw [if_neg (fun h => hh h.2), if_neg (fun h => hh h.2),
                if_neg (fun h => hh h.2), if_neg (fun h => hh h.2)]
              constructor <;> simp [countIndent_cons, countDedent_cons]
            | cons x cs2 =>
              have hlcs2 : cs2.length ≤ n := by
                simp only [List.length_cons] at hlen
                omega
              have hcs2nl : ∀ y ∈ cs2, y ≠ '\n' :=
                fun y hy => hcsnl y (by simp [hy])
              have htl : ((x :: cs2) ++ tail).tail = cs2 ++ tail := by simp
              by_cases h1 : c = '=' ∧ ((x :: cs2) ++ tail).head? = some '='
              · rw [if_pos h1, htl]
                have ih2 := ihn cs2 tail cur hlcs2 hcs2nl htail
                constructor <;>
                  simp [countIndent_cons, countDedent_cons, ih2.1, ih2.2]
              · rw [if_neg h1]
                by_cases h2 : c = '!' ∧ ((x :: cs2) ++ tail).head? = some '='
                · rw [if_pos h2, htl]
                  have ih2 := ihn cs2 tail cur hlcs2 hcs2nl htail
                  constructor <;>
                    simp [countIndent_cons, countDedent_cons, ih2.1, ih2.2]
                · rw [if_neg h2]
                  by_cases h3 : c = '<' ∧ ((x :: cs2) ++ tail).head? = some '='
                  · rw [if_pos h3, htl]
                    have ih2 := ihn cs2 tail cur hlcs2 hcs2nl htail
                    constructor <;>
                      simp [countIndent_cons, countDedent_cons, ih2.1, ih2.2]
                  · rw [if_neg h3]
                    by_cases h4 :
                        c = '>' ∧ ((x :: cs2) ++ tail).head? = some '='
                    · rw [if_pos h4, htl]
                      have ih2 := ihn cs2 tail cur hlcs2 hcs2nl htail
                      constructor <;>
                        simp [countIndent_cons, countDedent_cons, ih2.1, ih2.2]
                    · rw [if_neg h4]
                      have ihx := ihn (x :: cs2) tail cur
                        (by simp only [List.length_cons] at hlen ⊢; omega)
                        hcsnl htail
                      rw [List.cons_append] at ihx
                      constructor <;>
                        simp [countIndent_cons, countDedent_cons, ihx.1, ihx.2]
          · rw [if_neg hsym]
            by_cases hlb : c = '['
            · rw [if_pos hlb]
              have ihc := ihn cs tail cur hlcs hcsnl htail
              constructor <;>
                simp [countIndent_cons, countDedent_cons, ihc.1, ihc.2]
            · rw [if_neg hlb]
              by_cases hrb : c = ']'
              · rw [if_pos hrb]
                have ihc := ihn cs tail cur hlcs hcsnl htail
                constructor <;>
                  simp [countIndent_cons, countDedent_cons, ihc.1, ihc.2]
              · rw [if_neg hrb]
                by_cases hid : isIdentStart c = true
                · rw [if_pos hid]
                  have hra : readWhile isIdentChar (cs ++ tail) =
                      ((readWhile isIdentChar cs).1,
                        (readWhile isIdentChar cs).2 ++ tail) := by
                    apply readWhile_append
                    cases tail with
                    | nil => trivial
                    | cons t ts =>
                      have htn : t = '\n' := htail
                      rw [htn]
                      show isIdentChar '\n' = false
                      decide
                  rw [hra]
                  have ihc := ihn (readWhile isIdentChar cs).2 tail cur
                    (le_trans (readWhile_rest_length isIdentChar cs) hlcs)
                    (fun y hy =>
                      hcsnl y (readWhile_rest_mem isIdentChar cs y hy)) htail
                  constructor <;>
                    simp [countIndent_cons, countDedent_cons, ihc.1, ihc.2]
                · rw [if_neg hid]
                  by_cases hdg : c.isDigit = true
                  · rw [if_pos hdg]
                    have hra : readWhile isNumChar (cs ++ tail) =
                        ((readWhile isNumChar cs).1,
                          (readWhile isNumChar cs).2 ++ tail) := by
                      apply readWhile_append
                      cases tail with
                      | nil => trivial
                      | cons t ts =>
                        have htn : t = '\n' := htail
                        rw [htn]
                        show isNumChar '\n' = false
                        decide
                    rw [hra]
                    have ihc := ihn (readWhile isNumChar cs).2 tail cur
                      (le_trans (readWhile_rest_length isNumChar cs) hlcs)
                      (fun y hy =>
                        hcsnl y (readWhile_rest_mem isNumChar cs y hy)) htail
                    constructor <;>
                      simp [countIndent_cons, countDedent_cons, ihc.1, ihc.2]
                  · rw [if_neg hdg]
                    exact ihn cs tail cur hlcs hcsnl htail

/-- Lexing a well-formed line content preserves both token counts of
the continuation (wrapper of `lineLexAux` at the exact length). -/
theorem lineLex (content tail : List Char) (cur : Nat)
    (hnl : ∀ c ∈ content, c ≠ '\n')
    (htail : match tail with | [] => True | t :: _ => t = '\n') :
    countIndent (tokenizeAux (content ++ tail) cur) =
      countIndent (tokenizeAux tail cur) ∧
    countDedent (tokenizeAux (content ++ tail) cur) =
      countDedent (tokenizeAux tail cur) :=
  lineLexAux content.length content tail cur (Nat.le_refl _) hnl htail

/-- The balance invariant: lexing the continuation of a well-formed
program from current indent `4 * prev` emits exactly `prev` more
DEDENTs than INDENTs. -/
theorem tail_balance : ∀ (lines : List (Nat × List Char)) (prev : Nat),
    chainOk prev lines = true →
    countDedent (tokenizeAux (tailChars lines) (4 * prev)) =
      countIndent (tokenizeAux (tailChars lines) (4 * prev)) + prev := by
  intro lines
  induction lines with
  | nil =>
    intro prev _
    simp only [tailChars, tokenizeAux, finalDedents_mul,
      countIndent_replicate_dedent, countDedent_replicate_dedent]
    omega
  | cons line rest ih =>
    intro prev hchain
    obtain ⟨l, w⟩ := line
    have hl : l ≤ prev + 1 := by
      have := (Bool.and_elim_left (Bool.and_elim_left hchain))
      exact of_decide_eq_true this
    have hw : lineOk w = true := Bool.and_elim_right (Bool.and_elim_left hchain)
    have hrest : chainOk l rest = true := Bool.and_elim_right hchain
    have hIH := ih l hrest
    obtain ⟨⟨c, cs, hcw, hcsp, hct, hcn, hch⟩, hwnl⟩ := lineOk_facts w hw
    subst hcw
    have htail : (match tailChars rest with
        | [] => True | c2 :: _ => c2 = '\n') := by
      cases rest with
      | nil => trivial
      | cons r rs =>
        obtain ⟨rl, rw0⟩ := r
        simp [tailChars]
    have hcount : countLeading (lineChars l (c :: cs) ++ tailChars rest) =
        (4 * l, c :: (cs ++ tailChars rest)) := by
      show countLeading
          (List.replicate (4 * l) ' ' ++ (c :: cs) ++ tailChars rest) =
        (4 * l, c :: (cs ++ tailChars rest))
      rw [List.append_assoc, List.cons_append]
      exact countLeading_replicate (4 * l) c (cs ++ tailChars rest) hcsp hct
    have hstep : ∀ (toks : List Tok) (cur2 : Nat),
        handleIndentation (4 * prev)
            (lineChars l (c :: cs) ++ tailChars rest) =
          (cur2, toks, c :: (cs ++ tailChars rest)) →
        tokenizeAux (tailChars ((l, c :: cs) :: rest)) (4 * prev) =
          Tok.newline :: (toks ++
            tokenizeAux (c :: (cs ++ tailChars rest)) cur2) := by
      intro toks cur2 hhi
      show tokenizeAux ('\n' :: (lineChars l (c :: cs) ++ tailChars rest))
          (4 * prev) = _
      rw [tokenizeAux]
      simp only [hhi]
      simp
    have hbody : ∀ (toks : List Tok) (cur2 : Nat),
        tokenizeAux (tailChars ((l, c :: cs) :: rest)) (4 * prev) =
          Tok.newline :: (toks ++
            tokenizeAux (c :: (cs ++ tailChars rest)) cur2) →
        countDedent (tokenizeAux (tailChars ((l, c :: cs) :: rest)) (4 * prev))
          = countDedent toks +
            countDedent (tokenizeAux (c :: (cs ++ tailChars rest)) cur2) ∧
        countIndent (tokenizeAux (tailChars ((l, c :: cs) :: rest)) (4 * prev))
          = countIndent toks +
            countIndent (tokenizeAux (c :: (cs ++ tailChars rest)) cur2) := by
      intro toks cur2 heq
      rw [heq]
      constructor <;>
        simp [countIndent, countDedent, List.countP_cons, List.countP_append]
    have hline : ∀ cur2 : Nat,
        countIndent (tokenizeAux (c :: (cs ++ tailChars rest)) cur2) =
          countIndent (tokenizeAux (tailChars rest) cur2) ∧
        countDedent (tokenizeAux (c :: (cs ++ tailChars rest)) cur2) =
          countDedent (tokenizeAux (tailChars rest) cur2) := by
      intro cur2
      have := lineLex (c :: cs) (tailChars rest) cur2 hwnl htail
      rw [List.cons_append] at this
      exact this
    have hmatch : handleIndentation (4 * prev)
        (lineChars l (c :: cs) ++ tailChars rest) =
        (if 4 * l > 4 * prev then
          (4 * l, [Tok.indent (4 * l - 4 * prev)],
            c :: (cs ++ tailChars rest))
        else if 4 * l < 4 * prev then
          (4 * l, dedentLoop (4 * l) (4 * prev), c :: (cs ++ tailChars rest))
        else (4 * prev, [], c :: (cs ++ tailChars rest))) := by
      rw [handleIndentation, hcount]
      simp [hcn, hch]
    rcases Nat.lt_trichotomy l prev with hlp | hlp | hlp
    · -- dedent run of prev - l tokens
      have hdec : dedentLoop (4 * l) (4 * prev) =
          List.replicate (prev - l) Tok.dedent := by
        have h4 : 4 * prev = 4 * (l + (prev - l)) := by omega
        rw [h4, dedentLoop_mul]
      have hhi := hmatch
      rw [if_neg (by omega), if_pos (by omega), hdec] at hhi
      obtain ⟨hd, hi⟩ := hbody _ _ (hstep _ _ hhi)
      rw [hd, hi, countIndent_replicate_dedent, countDedent_replicate_dedent,
        (hline (4 * l)).1, (hline (4 * l)).2, hIH]
      omega
    · -- level unchanged: no tokens
      subst hlp
      have hhi := hmatch
      rw [if_neg (by omega), if_neg (by omega)] at hhi
      obtain ⟨hd, hi⟩ := hbody ([] : List Tok) _ (hstep ([] : List Tok) _ hhi)
      rw [hd, hi, countIndent_nil, countDedent_nil,
        (hline (4 * l)).1, (hline (4 * l)).2, hIH]
      omega
    · -- one INDENT of width 4
      have hhi := hmatch
      rw [if_pos (by omega)] at hhi
      obtain ⟨hd, hi⟩ := hbody _ _ (hstep _ _ hhi)
      rw [hd, hi, countIndent_indent_one, countDedent_indent_one,
        (hline (4 * l)).1, (hline (4 * l)).2, hIH]
      omega

/-- C2 as amended: the Indent and Dedent counts agree for every
program of the well-indented family — each line is `4 * k` leading
spaces followed by non-empty content that begins with a character
other than space, tab, or '#' and contains no newline (so no blank or
comment-only lines, whose skipped indentation measurement would break
the balance), the first line is unindented, and each line's level `k`
exceeds the previous line's by at most one.  The content itself is
arbitrary: any mix of identifiers, numbers, symbols, brackets, inner
whitespace, inner comments and unknown characters.  (The
counterexample shows the original unrestricted claim fails on an
8-space jump.) -/
theorem claim_C2 (w : List Char) (lines : List (Nat × List Char))
    (hw : lineOk w = true) (hc : chainOk 0 lines = true) :
    countIndent (tokenize (String.mk (w ++ tailChars lines))) =
      countDedent (tokenize (String.mk (w ++ tailChars lines))) := by
  have hwnl : ∀ x ∈ w, x ≠ '\n' := (lineOk_facts w hw).2
  have htail : (match tailChars lines with
      | [] => True | c2 :: _ => c2 = '\n') := by
    cases lines with
    | nil => trivial
    | cons r rs =>
      obtain ⟨rl, rw0⟩ := r
      simp [tailChars]
  show countIndent (tokenizeAux (w ++ tailChars lines) 0) =
    countDedent (tokenizeAux (w ++ tailChars lines) 0)
  have hline := lineLex w (tailChars lines) 0 hwnl htail
  rw [hline.1, hline.2]
  have hbal := tail_balance lines 0 hc
  simp only [Nat.mul_zero] at hbal
  omega

/-- Witness for `claim_C2` on the program

    var [x] = int[1]
        print(x)
            x = x + 1
    done

(levels 0, 1, 2, 0; lines with identifiers, digits, brackets, symbols
and inner spaces). -/
theorem claim_C2_witness :
    lineOk "var [x] = int[1]".data = true ∧
    chainOk 0 [(1, "print(x)".data), (2, "x = x + 1".data),
      (0, "done".data)] = true ∧
    countIndent (tokenize (String.mk ("var [x] = int[1]".data ++
        tailChars [(1, "print(x)".data), (2, "x = x + 1".data),
          (0, "done".data)]))) =
      countDedent (tokenize (String.mk ("var [x] = int[1]".data ++
        tailChars [(1, "print(x)".data), (2, "x = x + 1".data),
          (0, "done".data)]))) := by
  exact ⟨by decide, by decide,
    claim_C2 "var [x] = int[1]".data
      [(1, "print(x)".data), (2, "x = x + 1".data), (0, "done".data)]
      (by decide) (by decide)⟩
